import Mathlib

/-!
Verification of the Wordle-stats Discord bot core (src/bot.py).

The parsing, identity-resolution, aggregation and reconciliation logic of
bot.py is shallowly embedded below.  Python strings are modelled as
`List Char`; `str.strip` / `str.split` / `str.isdigit` / `str.lower` and
the `re` character classes `\s` `\d` are modelled over their ASCII
behaviour (the concrete marker phrases and mention syntax of bot.py are
ASCII).  Python floats are modelled as exact rationals.  Network calls
(member fetch, Supabase reads/writes) are modelled by explicit data:
a guild carries the members reachable from the cache and the members
reachable only by remote fetch, and the Supabase store path is modelled
as the pure function from local and persisted stats to the write-set and
the added/updated/skipped counts.
-/

namespace Wordle

/-- A guild member: numeric id, account username (`user.name`) and display
name.  bot.py resolves player references against these three fields. -/
structure Member where
  id : Nat
  name : String
  display_name : String
deriving DecidableEq, Repr

/-- A guild.  `members` is the local member cache (`guild.members`,
`guild.get_member`); `remote` models the members that only
`guild.fetch_member` can return.  An id in neither list makes
`fetch_member` raise `discord.NotFound`. -/
structure Guild where
  members : List Member
  remote : List Member
deriving DecidableEq, Repr

/-- A Discord message: text content (`[]` models empty or missing
content), the `message.mentions` list and `message.guild`. -/
structure Message where
  content : List Char
  mentions : List Member
  guild : Option Guild

/-- bot.py `class WordleGameResult`. -/
structure WordleGameResult where
  user_id : Nat
  username : String
  won : Bool
  guesses : Nat
deriving DecidableEq, Repr

/-- bot.py `MAX_WORDLE_GUESSES`. -/
def MAX_WORDLE_GUESSES : Nat := 6

/-! ## Python string primitives -/

/-- Python `str.strip()`: remove whitespace from both ends. -/
def pyStrip (cs : List Char) : List Char :=
  ((cs.dropWhile Char.isWhitespace).reverse.dropWhile Char.isWhitespace).reverse

/-- Python `str.split()`: split on runs of whitespace, dropping empty
pieces (structural one-character-lookahead formulation, so that it
evaluates inside the kernel). -/
def pySplit : List Char → List (List Char)
  | [] => []
  | [c] => if c.isWhitespace then [] else [[c]]
  | c :: c2 :: cs =>
      if c.isWhitespace then pySplit (c2 :: cs)
      else if c2.isWhitespace then [c] :: pySplit (c2 :: cs)
      else
        match pySplit (c2 :: cs) with
        | w :: ws => (c :: w) :: ws
        | [] => [[c]]

/-- Python `str.split(sep)` for a single-character separator: all
segments between occurrences of `sep`, empty segments kept. -/
def pySplitOn (sep : Char) : List Char → List (List Char)
  | [] => [[]]
  | c :: cs =>
      if c == sep then [] :: pySplitOn sep cs
      else
        match pySplitOn sep cs with
        | seg :: segs => (c :: seg) :: segs
        | [] => [[c]]

/-- Python `str.isdigit()` (ASCII): nonempty and all decimal digits. -/
def pyIsDigit (s : String) : Bool :=
  !s.data.isEmpty && s.data.all Char.isDigit

/-- Python `str.lower()` on one ASCII character. -/
def lowerChar (c : Char) : Char :=
  if 'A' ≤ c ∧ c ≤ 'Z' then Char.ofNat (c.toNat + 32) else c

/-- Python `str.lower()` (ASCII). -/
def pyLower (cs : List Char) : List Char := cs.map lowerChar

/-- `int(s)` on a string of decimal digits. -/
def digitsToNat (cs : List Char) : Nat :=
  cs.foldl (fun n c => 10 * n + (c.toNat - 48)) 0

/-- Decimal digit character of `d < 10`. -/
def digitChar (d : Nat) : Char := Char.ofNat (48 + d)

/-- Decimal digits of `n`, most significant first, with enough fuel. -/
def natDigitsAux : Nat → Nat → List Char
  | 0, _ => []
  | fuel + 1, n =>
      if n < 10 then [digitChar n]
      else natDigitsAux fuel (n / 10) ++ [digitChar (n % 10)]

/-- Decimal digits of `n`, most significant first (`str(n)` in Python). -/
def natDigits (n : Nat) : List Char := natDigitsAux (n + 1) n

/-- Python `str(n)` for a natural number. -/
def natToString (n : Nat) : String := String.mk (natDigits n)

/-- Does `pat` occur as a leading run of `cs`? (`re` literal prefix.) -/
def leadsWith : List Char → List Char → Bool
  | [], _ => true
  | _ :: _, [] => false
  | p :: ps, c :: cs => p == c && leadsWith ps cs

/-- Strip the literal `pat` from the front of `cs`, returning the rest. -/
def stripLead : List Char → List Char → Option (List Char)
  | [], cs => some cs
  | _ :: _, [] => none
  | p :: ps, c :: cs => if p == c then stripLead ps cs else none

/-- `re.search` for a literal pattern: does `pat` occur anywhere in
`cs`? -/
def containsSub (pat : List Char) : List Char → Bool
  | [] => leadsWith pat []
  | c :: cs => leadsWith pat (c :: cs) || containsSub pat cs

/-! ## The mention regex `<@!?(\d+)>`

bot.py uses `re.findall(r'<@!?(\d+)>', s)` to collect explicit tagged
references and `re.sub(r'<@!?\d+>', '', s)` to erase them.  The scanner
below matches the regex at the current position and otherwise advances
one character, exactly as `re` scans. -/

/-- After `<@`, the regex `!?` optionally consumes one `!`. -/
def mentionRest2 (rest : List Char) : List Char :=
  if rest.head? == some '!' then rest.tail else rest

/-- The part of the mention regex after `<@`: `!?(\d+)>`.  On success
return the captured digit run and the remainder after the `>`. -/
def mentionBody (rest : List Char) : Option (List Char × List Char) :=
  match (mentionRest2 rest).dropWhile Char.isDigit with
  | c :: tail =>
      if c == '>' && !((mentionRest2 rest).takeWhile Char.isDigit).isEmpty then
        some ((mentionRest2 rest).takeWhile Char.isDigit, tail)
      else none
  | [] => none

/-- Match `<@!?(\d+)>` at the head of `cs`; on success return the
captured digit run and the remainder after the match. -/
def findMentionAt (cs : List Char) : Option (List Char × List Char) :=
  if cs.head? == some '<' && cs.tail.head? == some '@' then
    mentionBody cs.tail.tail
  else none

/-- One scanning pass of `re.findall(r'<@!?(\d+)>', s)`: on a match,
continue after it; otherwise advance one character.  Each step consumes
at least one character, so fuel equal to the string length suffices. -/
def findMentionsAux : Nat → List Char → List (List Char)
  | 0, _ => []
  | fuel + 1, cs =>
      match cs with
      | [] => []
      | c :: rest =>
          match findMentionAt (c :: rest) with
          | some (ds, tail) => ds :: findMentionsAux fuel tail
          | none => findMentionsAux fuel rest

/-- `re.findall(r'<@!?(\d+)>', s)`: every captured digit run, scanning
left to right. -/
def findMentions (cs : List Char) : List (List Char) :=
  findMentionsAux cs.length cs

/-- Scanning pass of `re.sub(r'<@!?\d+>', '', s)`, fuelled like
`findMentionsAux`. -/
def removeMentionsAux : Nat → List Char → List Char
  | 0, cs => cs
  | fuel + 1, cs =>
      match cs with
      | [] => []
      | c :: rest =>
          match findMentionAt (c :: rest) with
          | some (_, tail) => removeMentionsAux fuel tail
          | none => c :: removeMentionsAux fuel rest

/-- `re.sub(r'<@!?\d+>', '', s)`: erase every explicit tagged
reference. -/
def removeMentions (cs : List Char) : List Char :=
  removeMentionsAux cs.length cs

/-- The numeric ids of all explicit tagged references, in order
(`int(user_id_str)` over the `findall` captures). -/
def mentionIds (cs : List Char) : List Nat :=
  (findMentions cs).map digitsToNat

/-! ## Marker phrases (bot.py lines 444-455, 412, 998-1004)

`re.search(r'Your group is on (a|an) (\d+) day streak', content)` and
`re.search(r"Nobody got yesterday's Wordle", content, re.IGNORECASE)`. -/

/-- After `Your group is on a`, the rest of the streak regex:
`( |n )(\d+) day streak` (the alternation `(a|an)` reduces to an optional
`n` here, since the branch `a` must be followed by a space). -/
def streakTail (r2 : List Char) : Bool :=
  match r2 with
  | c :: rest =>
      c == ' ' && !(rest.takeWhile Char.isDigit).isEmpty &&
        leadsWith " day streak".data (rest.dropWhile Char.isDigit)
  | [] => false

/-- Match the streak regex at the head of `cs`. -/
def streakMatchAt (cs : List Char) : Bool :=
  match stripLead "Your group is on a".data cs with
  | none => false
  | some r => streakTail (if r.head? == some 'n' then r.tail else r)

/-- `re.search` of the streak regex: try each start position. -/
def searchStreak : List Char → Bool
  | [] => false
  | c :: cs => streakMatchAt (c :: cs) || searchStreak cs

/-- The "nobody" marker, lowercased (matching is case-insensitive). -/
def nobodyPat : List Char := "nobody got yesterday's wordle".data

/-- Case-insensitive `re.search` for the "nobody" marker. -/
def containsNobody (cs : List Char) : Bool :=
  containsSub nobodyPat (pyLower cs)

/-- The three message classes of the event handler / setup scan. -/
inductive MessageClass
  | Results
  | NoWinner
  | Unrecognized
deriving DecidableEq, Repr

/-- Classification of raw message text, as performed by `on_message`
(bot.py lines 998-1016) and the `/setup` scan (lines 1185-1196): the
streak pattern is tried first, then the "nobody" pattern; empty or
missing content matches neither. -/
def classify (content : List Char) : MessageClass :=
  if content.isEmpty then .Unrecognized
  else if searchStreak content then .Results
  else if containsNobody content then .NoWinner
  else .Unrecognized

/-! ## The result-line regex (bot.py line 469)

`re.match(r'(:crown:\s+|👑\s+)?([1-6X])/6:\s+(.+)', line)` applied to
each stripped line of a results message. -/

/-- The guess-token character class `[1-6X]`. -/
def isGuessTok (c : Char) : Bool := c == 'X' || ('1' ≤ c && c ≤ '6')

/-- After a crown literal leaving remainder `r`: the optional group needs
`\s+` next; if it is missing the group matches empty instead and the
guess token must start the original line. -/
def crownStrip (r : List Char) (line : List Char) : List Char :=
  if (r.takeWhile Char.isWhitespace).isEmpty then line
  else r.dropWhile Char.isWhitespace

/-- Consume the optional crown group `(:crown:\s+|👑\s+)?`. -/
def dropCrown (line : List Char) : List Char :=
  match stripLead ":crown:".data line with
  | some r => crownStrip r line
  | none =>
      match stripLead "👑".data line with
      | some r => crownStrip r line
      | none => line

/-- Last character of the nonempty list `c :: cs`. -/
def lastChar (c : Char) : List Char → Char
  | [] => c
  | c' :: cs => lastChar c' cs

/-- The part of the line regex after `[1-6X]/6:` — `\s+(.+)`.  Returns
the capture of group 3.  If everything after the colon is whitespace,
`\s+` backtracks one character so `(.+)` can capture it (needs at least
two characters); this only arises on lines that were not stripped. -/
def lineUsers (g : Char) (rest : List Char) : Option (Char × List Char) :=
  match rest.dropWhile Char.isWhitespace with
  | u :: us =>
      if (rest.takeWhile Char.isWhitespace).isEmpty then none
      else some (g, u :: us)
  | [] =>
      match rest with
      | c :: c2 :: cs => some (g, [lastChar c2 cs])
      | _ => none

/-- `re.match` of the result-line regex: on success return the guess
token and the captured player-reference text. -/
def lineMatch (line : List Char) : Option (Char × List Char) :=
  match dropCrown line with
  | g :: s1 :: s2 :: s3 :: rest =>
      if isGuessTok g && s1 == '/' && s2 == '6' && s3 == ':' then
        lineUsers g rest
      else none
  | _ => none

/-! ## Identity resolution (bot.py lines 247-387 and 484-609) -/

/-- Resolve an explicit tagged id: `message.mentions` first, then the
guild member cache, then a remote fetch; `none` models
`discord.NotFound` (or no guild context at all). -/
def lookupMention (mentions : List Member) (guild : Option Guild) (uid : Nat) :
    Option Member :=
  match mentions.find? (fun u => u.id == uid) with
  | some u => some u
  | none =>
      match guild with
      | some g =>
          match g.members.find? (fun u => u.id == uid) with
          | some u => some u
          | none => g.remote.find? (fun u => u.id == uid)
      | none => none

/-- `f'User_{user_id}'`. -/
def placeholderName (uid : Nat) : String := "User_" ++ natToString uid

/-- The explicit-reference loop of `parse_wordle_message_content`
(lines 487-536): each id resolves to a member (appended to
`user_objects`) or degrades to a placeholder pair (appended to
`unresolved_user_ids`).  The loop of `extract_users_from_content`
(lines 272-310) is the same except that it drops the placeholders, so it
is modelled as the first component of this function. -/
def resolveExplicitRefs (mentions : List Member) (guild : Option Guild) :
    List Nat → List Member × List (Nat × String)
  | [] => ([], [])
  | uid :: rest =>
      let p := resolveExplicitRefs mentions guild rest
      match lookupMention mentions guild uid with
      | some u => (u :: p.1, p.2)
      | none => (p.1, (uid, placeholderName uid) :: p.2)

/-- The case-insensitive fallback predicate (`discord.utils.find`). -/
def ciMatch (c : String) (m : Member) : Bool :=
  pyLower m.display_name.data == pyLower c.data ||
    pyLower m.name.data == pyLower c.data

/-- One candidate string against the guild member list: exact display
name, else exact username, else case-insensitive on either field. -/
def tryCandidate (gmembers : List Member) (c : String) : Option Member :=
  match gmembers.find? (fun m => m.display_name == c) with
  | some u => some u
  | none =>
      match gmembers.find? (fun m => m.name == c) with
      | some u => some u
      | none => gmembers.find? (fun m => ciMatch c m)

/-- `' '.join(words[:k])`. -/
def candidateOf (words : List String) (k : Nat) : String :=
  String.intercalate " " (words.take k)

/-- Was this candidate text already resolved via a proper mention or an
earlier window? (`any(u.name == candidate or u.display_name == candidate
for u in user_objects)`). -/
def alreadyFound (found : List Member) (c : String) : Bool :=
  found.any (fun u => u.name == c || u.display_name == c)

/-- The `for word_count in range(1, max_words + 1)` loop over one
window: skip purely numeric candidates and candidates equal to an
already-found user, stop at the first word count that matches. -/
def windowLoop (gm : List Member) (found : List Member) (words : List String) :
    List Nat → Option Member
  | [] => none
  | k :: ks =>
      if pyIsDigit (candidateOf words k) then windowLoop gm found words ks
      else if alreadyFound found (candidateOf words k) then windowLoop gm found words ks
      else
        match tryCandidate gm (candidateOf words k) with
        | some u => some u
        | none => windowLoop gm found words ks

/-- One `@`-window: split into words, try prefixes of 1..min(5, #words)
words. -/
def resolveWindow (gm found : List Member) (textAfterAt : List Char) : Option Member :=
  windowLoop gm found ((pySplit textAfterAt).map String.mk)
    (List.range' 1 (min ((pySplit textAfterAt).map String.mk).length 5))

/-- The plain-text mention loop over all `@`-windows, accumulating
resolved users into `found`. -/
def plainTextPhase (gm : List Member) (found : List Member) :
    List (List Char) → List Member
  | [] => found
  | w :: ws =>
      if (pyStrip w).isEmpty then plainTextPhase gm found ws
      else
        match resolveWindow gm found (pyStrip w) with
        | some u => plainTextPhase gm (found ++ [u]) ws
        | none => plainTextPhase gm found ws

/-- The text windows after each `@` in the mention-erased content: for
each `@`, the text up to the next `@` or the end of the string. -/
def atWindows (cleaned : List Char) : List (List Char) :=
  (pySplitOn '@' cleaned).tail

/-- `guild_override or message.guild`. -/
def effectiveGuild (msg : Message) (guildOverride : Option Guild) : Option Guild :=
  match guildOverride with
  | some g => some g
  | none => msg.guild

/-- bot.py `extract_users_from_content`.  Note: this function appends
each *resolved* explicit reference and merely logs an unresolved one
(lines 286-310), so only the resolved members are kept; placeholders are
not produced on this path. -/
def extract_users_from_content (msg : Message) (content : List Char)
    (guildOverride : Option Guild) : List Member :=
  let guild := effectiveGuild msg guildOverride
  let objs := (resolveExplicitRefs msg.mentions guild (mentionIds content)).1
  match guild with
  | some g => plainTextPhase g.members objs (atWindows (removeMentions content))
  | none => objs

/-- bot.py `parse_nobody_message_content`. -/
def parse_nobody_message_content (msg : Message) (guildOverride : Option Guild) :
    List WordleGameResult :=
  if msg.content.isEmpty then []
  else if !containsNobody msg.content then []
  else
    (extract_users_from_content msg msg.content guildOverride).map
      (fun u => ⟨u.id, u.name, false, MAX_WORDLE_GUESSES⟩)

/-- Guess token meaning: `X` → six guesses, lost; digit `d` → `d`
guesses, won. -/
def tokenMeaning (g : Char) : Bool × Nat :=
  if g == 'X' then (false, MAX_WORDLE_GUESSES) else (true, g.toNat - 48)

/-- Outcomes of one matched result line: resolved explicit references
and plain-text mentions first, then placeholder entries, all sharing the
line's won/guess_count. -/
def lineOutcomes (mentions : List Member) (guild : Option Guild) (g : Char)
    (usersStr : List Char) : List WordleGameResult :=
  let er := resolveExplicitRefs mentions guild (mentionIds usersStr)
  let finalObjs := match guild with
    | some gd => plainTextPhase gd.members er.1 (atWindows (removeMentions usersStr))
    | none => er.1
  finalObjs.map (fun u => ⟨u.id, u.name, (tokenMeaning g).1, (tokenMeaning g).2⟩) ++
    er.2.map (fun p => ⟨p.1, p.2, (tokenMeaning g).1, (tokenMeaning g).2⟩)

/-- One line of a results message: strip it, skip it when empty or when
the line regex does not match, otherwise produce its outcomes. -/
def parseLine (mentions : List Member) (guild : Option Guild) (rawLine : List Char) :
    List WordleGameResult :=
  if (pyStrip rawLine).isEmpty then []
  else
    match lineMatch (pyStrip rawLine) with
    | some (g, users) => lineOutcomes mentions guild g users
    | none => []

/-- bot.py `parse_wordle_message_content`. -/
def parse_wordle_message_content (msg : Message) (guildOverride : Option Guild) :
    List WordleGameResult :=
  if msg.content.isEmpty then []
  else if !searchStreak msg.content then []
  else
    (pySplitOn '\n' msg.content).foldl
      (fun acc line => acc ++ parseLine msg.mentions (effectiveGuild msg guildOverride) line)
      []

/-! ## Statistics aggregation (bot.py lines 160-178, 632-684)

The `user_stats` dict is modelled as an association list with the dict's
insertion-order semantics: an update replaces the value in place, a new
key is appended at the end. -/

/-- bot.py `initialize_user_stats`: zeroed counters, captured name. -/
structure UserStats where
  user_id : Nat
  username : String
  total_games : Nat
  total_guesses : Nat
  wins : Nat
  losses : Nat
deriving DecidableEq, Repr

def initialize_user_stats (user_id : Nat) (username : String) : UserStats :=
  ⟨user_id, username, 0, 0, 0, 0⟩

/-- `user_stats[uid]` / `uid in user_stats`. -/
def lookupStats (l : List (Nat × UserStats)) (uid : Nat) : Option UserStats :=
  (l.find? (fun p => p.1 == uid)).map Prod.snd

/-- `user_stats[uid] = s`: replace in place, else append. -/
def writeStats : List (Nat × UserStats) → Nat → UserStats → List (Nat × UserStats)
  | [], uid, s => [(uid, s)]
  | p :: ps, uid, s =>
      if p.1 == uid then (uid, s) :: ps else p :: writeStats ps uid s

/-- Body of the `process_wordle_message` loop (lines 675-684): create
the entry if absent, then `total_games += 1`, `wins`/`losses` per `won`,
`total_guesses += guesses`. -/
def applyWordleOutcome (l : List (Nat × UserStats)) (res : WordleGameResult) :
    List (Nat × UserStats) :=
  let cur := (lookupStats l res.user_id).getD
    (initialize_user_stats res.user_id res.username)
  writeStats l res.user_id
    { cur with
      total_games := cur.total_games + 1
      wins := if res.won then cur.wins + 1 else cur.wins
      losses := if res.won then cur.losses else cur.losses + 1
      total_guesses := cur.total_guesses + res.guesses }

/-- Body of the `process_nobody_got_wordle_message` loop (lines
649-655): create if absent, then `total_games += 1`, `losses += 1`,
`total_guesses += guesses`. -/
def applyNobodyOutcome (l : List (Nat × UserStats)) (res : WordleGameResult) :
    List (Nat × UserStats) :=
  let cur := (lookupStats l res.user_id).getD
    (initialize_user_stats res.user_id res.username)
  writeStats l res.user_id
    { cur with
      total_games := cur.total_games + 1
      losses := cur.losses + 1
      total_guesses := cur.total_guesses + res.guesses }

/-- bot.py `process_wordle_message`: parse, then fold the outcomes into
the accumulator map. -/
def process_wordle_message (msg : Message) (user_stats : List (Nat × UserStats))
    (guildOverride : Option Guild) : List (Nat × UserStats) :=
  (parse_wordle_message_content msg guildOverride).foldl applyWordleOutcome user_stats

/-- bot.py `process_nobody_got_wordle_message`. -/
def process_nobody_got_wordle_message (msg : Message)
    (user_stats : List (Nat × UserStats)) (guildOverride : Option Guild) :
    List (Nat × UserStats) :=
  (parse_nobody_message_content msg guildOverride).foldl applyNobodyOutcome user_stats

/-! ## Statistics calculation and the Supabase store path
(bot.py lines 687-841)

Python float arithmetic is modelled as exact rational arithmetic, and
`round(x, 2)` as rounding to the nearest multiple of 1/100 (ties do not
occur in any statement proved below). -/

/-- One entry of `stats_summary`: raw counters plus derived fields. -/
structure SummaryEntry where
  user_id : Nat
  username : String
  total_games : Nat
  total_guesses : Nat
  wins : Nat
  losses : Nat
  win_rate : Rat
  loss_rate : Rat
  avg_guess : Rat
deriving DecidableEq, Repr

/-- The body of the `calculate_statistics` loop. -/
def mkSummary (uid : Nat) (st : UserStats) : SummaryEntry :=
  { user_id := uid
    username := st.username
    total_games := st.total_games
    total_guesses := st.total_guesses
    wins := st.wins
    losses := st.losses
    win_rate := if 0 < st.total_games then (st.wins : Rat) / st.total_games * 100 else 0
    loss_rate := if 0 < st.total_games then (st.losses : Rat) / st.total_games * 100 else 0
    avg_guess := if 0 < st.total_games then (st.total_guesses : Rat) / st.total_games else 0 }

/-- bot.py `calculate_statistics`. -/
def calculate_statistics (user_stats : List (Nat × UserStats)) :
    List (Nat × SummaryEntry) :=
  user_stats.map (fun p => (p.1, mkSummary p.1 p.2))

/-- bot.py `generate_uuid_from_user_id` derives a deterministic uuid5
(an SHA-1-based hash, injective on decimal id strings) from the user id;
the hash itself is modelled as a deterministic injective tag. -/
def generate_uuid_from_user_id (user_id : Nat) : String :=
  "uuid5:" ++ natToString user_id

/-- `round(x, 2)`. -/
def round2 (q : Rat) : Rat := (round (q * 100) : ℤ) / 100

/-- One record of the write-set passed to the batch upsert. -/
structure StatsRecord where
  id : String
  user_id : String
  username : String
  total_games : Nat
  total_guesses : Nat
  wins : Nat
  losses : Nat
  win_rate : Rat
  loss_rate : Rat
  avg_guess : Rat
  last_updated_date : Int
deriving DecidableEq, Repr

/-- Build the record dict of bot.py lines 776-788 / 797-809. -/
def mkRecord (ts : Int) (uid : Nat) (st : SummaryEntry) : StatsRecord :=
  { id := generate_uuid_from_user_id uid
    user_id := natToString uid
    username := st.username
    total_games := st.total_games
    total_guesses := st.total_guesses
    wins := st.wins
    losses := st.losses
    win_rate := round2 st.win_rate
    loss_rate := round2 st.loss_rate
    avg_guess := round2 st.avg_guess
    last_updated_date := ts }

/-- The write-set and the added/updated/skipped counters. -/
structure StoreOutcome where
  records : List StatsRecord
  added : Nat
  updated : Nat
  skipped : Nat
deriving DecidableEq, Repr

/-- `timedelta(days=1)` in seconds; wall-clock timestamps are modelled
as integer seconds (UTC has no DST, so one day is exactly 86400 s). -/
def SECONDS_PER_DAY : Int := 86400

/-- One iteration of the `for user_id, stats in stats_summary.items()`
loop of `store_user_stats_in_supabase` (lines 769-818). -/
def storeStep (existing : List (Nat × UserStats)) (ts : Int) (acc : StoreOutcome)
    (p : Nat × SummaryEntry) : StoreOutcome :=
  match lookupStats existing p.1 with
  | none =>
      { acc with
        records := acc.records ++ [mkRecord ts p.1 p.2]
        added := acc.added + 1 }
  | some db =>
      if db.total_games < p.2.total_games then
        { acc with
          records := acc.records ++ [mkRecord ts p.1 p.2]
          updated := acc.updated + 1 }
      else { acc with skipped := acc.skipped + 1 }

/-- The pure core of bot.py `store_user_stats_in_supabase`: from the
wall-clock time `now`, the local stats and the persisted records
(fetched by id; `existing` is that snapshot, queried through
`lookupStats`), build the write-set handed to the single batch upsert
and the added/updated/skipped counts.  The timestamp written is
`now - 1 day` (line 767). -/
def store_user_stats_in_supabase (now : Int)
    (user_stats existing : List (Nat × UserStats)) : StoreOutcome :=
  (calculate_statistics user_stats).foldl
    (storeStep existing (now - SECONDS_PER_DAY)) ⟨[], 0, 0, 0⟩

/-! ## The aggregation passes quantified over by the invariant claims -/

/-- One call into the aggregator during a processing pass: a parsed
results message or a parsed no-winner message (each is applied to the
accumulator map as a fold of its outcome list). -/
inductive AggCall where
  | wordle (rs : List WordleGameResult)
  | nobody (rs : List WordleGameResult)

/-- The outcome list a call carries. -/
def AggCall.outcomes : AggCall → List WordleGameResult
  | .wordle rs => rs
  | .nobody rs => rs

/-- Apply one aggregator call to the accumulator map. -/
def runCall (l : List (Nat × UserStats)) : AggCall → List (Nat × UserStats)
  | .wordle rs => rs.foldl applyWordleOutcome l
  | .nobody rs => rs.foldl applyNobodyOutcome l

/-- Apply a sequence of aggregator calls. -/
def runCalls (l : List (Nat × UserStats)) (cs : List AggCall) :
    List (Nat × UserStats) :=
  cs.foldl runCall l

/-- The accumulator invariant of the spec. -/
def StatsInv (s : UserStats) : Prop :=
  s.total_games = s.wins + s.losses ∧ s.total_games ≤ s.total_guesses

/-- Pointwise monotonicity of the four counters. -/
def StatsLe (s t : UserStats) : Prop :=
  s.total_games ≤ t.total_games ∧ s.total_guesses ≤ t.total_guesses ∧
    s.wins ≤ t.wins ∧ s.losses ≤ t.losses

/-! ## Association-list lemmas -/

theorem lookupStats_writeStats_self (l : List (Nat × UserStats)) (uid : Nat)
    (s : UserStats) : lookupStats (writeStats l uid s) uid = some s := by
  induction l with
  | nil => simp [writeStats, lookupStats]
  | cons p ps ih =>
      by_cases h : p.1 = uid
      · simp [writeStats, lookupStats, h]
      · simp only [writeStats]
        rw [if_neg (by simpa using h)]
        simp only [lookupStats, List.find?]
        rw [show (p.1 == uid) = false by simpa using h]
        exact ih

theorem lookupStats_writeStats_other (l : List (Nat × UserStats)) (uid : Nat)
    (s : UserStats) (k : Nat) (hk : k ≠ uid) :
    lookupStats (writeStats l uid s) k = lookupStats l k := by
  induction l with
  | nil => simp [writeStats, lookupStats, Ne.symm hk]
  | cons p ps ih =>
      by_cases h : p.1 = uid
      · simp only [writeStats]
        rw [if_pos (by simpa using h)]
        simp only [lookupStats, List.find?]
        rw [show (uid == k) = false by simpa using Ne.symm hk,
          show (p.1 == k) = false by simp [h, Ne.symm hk]]
      · simp only [writeStats]
        rw [if_neg (by simpa using h)]
        by_cases h2 : p.1 = k
        · simp [lookupStats, List.find?, h2]
        · simp only [lookupStats, List.find?] at ih ⊢
          rw [show (p.1 == k) = false by simpa using h2]
          exact ih

theorem mem_writeStats {l : List (Nat × UserStats)} {uid : Nat} {s : UserStats}
    {p : Nat × UserStats} (h : p ∈ writeStats l uid s) : p = (uid, s) ∨ p ∈ l := by
  induction l with
  | nil => simpa [writeStats] using h
  | cons q qs ih =>
      simp only [writeStats] at h
      split at h
      · rcases List.mem_cons.1 h with h1 | h1
        · exact Or.inl h1
        · exact Or.inr (List.mem_cons_of_mem _ h1)
      · rcases List.mem_cons.1 h with h1 | h1
        · exact Or.inr (h1 ▸ List.mem_cons_self _ _)
        · rcases ih h1 with h2 | h2
          · exact Or.inl h2
          · exact Or.inr (List.mem_cons_of_mem _ h2)

theorem lookupStats_mem {l : List (Nat × UserStats)} {uid : Nat} {s : UserStats}
    (h : lookupStats l uid = some s) : (uid, s) ∈ l := by
  simp only [lookupStats, Option.map_eq_some'] at h
  obtain ⟨p, hp, hps⟩ := h
  have hmem := List.mem_of_find?_eq_some hp
  have hpred := List.find?_some hp
  have : p.1 = uid := by simpa using hpred
  have : p = (uid, s) := by
    cases p
    simp_all
  exact this ▸ hmem

/-! ## Aggregator step lemmas -/

theorem applyWordleOutcome_preserve (l : List (Nat × UserStats))
    (res : WordleGameResult) (k : Nat) (s : UserStats)
    (h : lookupStats l k = some s) :
    ∃ t, lookupStats (applyWordleOutcome l res) k = some t ∧
      t.user_id = s.user_id ∧ t.username = s.username ∧ StatsLe s t := by
  by_cases hk : k = res.user_id
  · subst hk
    refine ⟨{ s with
        total_games := s.total_games + 1
        wins := if res.won then s.wins + 1 else s.wins
        losses := if res.won then s.losses else s.losses + 1
        total_guesses := s.total_guesses + res.guesses }, ?_, rfl, rfl,
        Nat.le_succ _, Nat.le_add_right .., ?_, ?_⟩
    · simp only [applyWordleOutcome, h, Option.getD_some]
      exact lookupStats_writeStats_self ..
    · show s.wins ≤ if res.won then s.wins + 1 else s.wins
      split <;> omega
    · show s.losses ≤ if res.won then s.losses else s.losses + 1
      split <;> omega
  · exact ⟨s, by
      simp only [applyWordleOutcome]
      rw [lookupStats_writeStats_other _ _ _ _ hk]
      exact h, rfl, rfl, Nat.le_refl _, Nat.le_refl _, Nat.le_refl _, Nat.le_refl _⟩

theorem applyNobodyOutcome_preserve (l : List (Nat × UserStats))
    (res : WordleGameResult) (k : Nat) (s : UserStats)
    (h : lookupStats l k = some s) :
    ∃ t, lookupStats (applyNobodyOutcome l res) k = some t ∧
      t.user_id = s.user_id ∧ t.username = s.username ∧ StatsLe s t := by
  by_cases hk : k = res.user_id
  · subst hk
    refine ⟨{ s with
        total_games := s.total_games + 1
        losses := s.losses + 1
        total_guesses := s.total_guesses + res.guesses }, ?_, rfl, rfl,
        Nat.le_succ _, Nat.le_add_right .., Nat.le_refl _, Nat.le_succ _⟩
    simp only [applyNobodyOutcome, h, Option.getD_some]
    exact lookupStats_writeStats_self ..
  · exact ⟨s, by
      simp only [applyNobodyOutcome]
      rw [lookupStats_writeStats_other _ _ _ _ hk]
      exact h, rfl, rfl, Nat.le_refl _, Nat.le_refl _, Nat.le_refl _, Nat.le_refl _⟩

theorem applyWordleOutcome_inv {l : List (Nat × UserStats)}
    {res : WordleGameResult} (hg : 1 ≤ res.guesses)
    (hInv : ∀ p ∈ l, StatsInv p.2) :
    ∀ p ∈ applyWordleOutcome l res, StatsInv p.2 := by
  intro p hp
  simp only [applyWordleOutcome] at hp
  rcases mem_writeStats hp with rfl | hmem
  · have hcur : StatsInv ((lookupStats l res.user_id).getD
        (initialize_user_stats res.user_id res.username)) := by
      cases hc : lookupStats l res.user_id with
      | none => exact ⟨rfl, Nat.le_refl _⟩
      | some s => exact hInv _ (lookupStats_mem hc)
    obtain ⟨h1, h2⟩ := hcur
    set cur := (lookupStats l res.user_id).getD
      (initialize_user_stats res.user_id res.username)
    constructor
    · show cur.total_games + 1 =
        (if res.won then cur.wins + 1 else cur.wins) +
          (if res.won then cur.losses else cur.losses + 1)
      split <;> omega
    · show cur.total_games + 1 ≤ cur.total_guesses + res.guesses
      omega
  · exact hInv _ hmem

theorem applyNobodyOutcome_inv {l : List (Nat × UserStats)}
    {res : WordleGameResult} (hg : 1 ≤ res.guesses)
    (hInv : ∀ p ∈ l, StatsInv p.2) :
    ∀ p ∈ applyNobodyOutcome l res, StatsInv p.2 := by
  intro p hp
  simp only [applyNobodyOutcome] at hp
  rcases mem_writeStats hp with rfl | hmem
  · have hcur : StatsInv ((lookupStats l res.user_id).getD
        (initialize_user_stats res.user_id res.username)) := by
      cases hc : lookupStats l res.user_id with
      | none => exact ⟨rfl, Nat.le_refl _⟩
      | some s => exact hInv _ (lookupStats_mem hc)
    obtain ⟨h1, h2⟩ := hcur
    set cur := (lookupStats l res.user_id).getD
      (initialize_user_stats res.user_id res.username)
    constructor
    · show cur.total_games + 1 = cur.wins + (cur.losses + 1)
      omega
    · show cur.total_games + 1 ≤ cur.total_guesses + res.guesses
      omega
  · exact hInv _ hmem

theorem StatsLe.rfl (s : UserStats) : StatsLe s s :=
  ⟨Nat.le_refl _, Nat.le_refl _, Nat.le_refl _, Nat.le_refl _⟩

theorem StatsLe.trans {s t u : UserStats} (h1 : StatsLe s t) (h2 : StatsLe t u) :
    StatsLe s u := by
  obtain ⟨a1, a2, a3, a4⟩ := h1
  obtain ⟨b1, b2, b3, b4⟩ := h2
  exact ⟨Nat.le_trans a1 b1, Nat.le_trans a2 b2, Nat.le_trans a3 b3, Nat.le_trans a4 b4⟩

theorem foldl_applyWordleOutcome_preserve (rs : List WordleGameResult)
    (l : List (Nat × UserStats)) (k : Nat) (s : UserStats)
    (h : lookupStats l k = some s) :
    ∃ t, lookupStats (rs.foldl applyWordleOutcome l) k = some t ∧
      t.user_id = s.user_id ∧ t.username = s.username ∧ StatsLe s t := by
  induction rs generalizing l s with
  | nil => exact ⟨s, h, rfl, rfl, StatsLe.rfl s⟩
  | cons r rs ih =>
      obtain ⟨t, ht, hid, hname, hle⟩ := applyWordleOutcome_preserve l r k s h
      obtain ⟨u, hu, hid2, hname2, hle2⟩ := ih _ _ ht
      exact ⟨u, hu, hid2.trans hid, hname2.trans hname, hle.trans hle2⟩

theorem foldl_applyNobodyOutcome_preserve (rs : List WordleGameResult)
    (l : List (Nat × UserStats)) (k : Nat) (s : UserStats)
    (h : lookupStats l k = some s) :
    ∃ t, lookupStats (rs.foldl applyNobodyOutcome l) k = some t ∧
      t.user_id = s.user_id ∧ t.username = s.username ∧ StatsLe s t := by
  induction rs generalizing l s with
  | nil => exact ⟨s, h, rfl, rfl, StatsLe.rfl s⟩
  | cons r rs ih =>
      obtain ⟨t, ht, hid, hname, hle⟩ := applyNobodyOutcome_preserve l r k s h
      obtain ⟨u, hu, hid2, hname2, hle2⟩ := ih _ _ ht
      exact ⟨u, hu, hid2.trans hid, hname2.trans hname, hle.trans hle2⟩

theorem foldl_applyWordleOutcome_inv {rs : List WordleGameResult}
    {l : List (Nat × UserStats)} (hg : ∀ r ∈ rs, 1 ≤ r.guesses)
    (hInv : ∀ p ∈ l, StatsInv p.2) :
    ∀ p ∈ rs.foldl applyWordleOutcome l, StatsInv p.2 := by
  induction rs generalizing l with
  | nil => exact hInv
  | cons r rs ih =>
      exact ih (fun r hr => hg r (List.mem_cons_of_mem _ hr))
        (applyWordleOutcome_inv (hg r (List.mem_cons_self ..)) hInv)

theorem foldl_applyNobodyOutcome_inv {rs : List WordleGameResult}
    {l : List (Nat × UserStats)} (hg : ∀ r ∈ rs, 1 ≤ r.guesses)
    (hInv : ∀ p ∈ l, StatsInv p.2) :
    ∀ p ∈ rs.foldl applyNobodyOutcome l, StatsInv p.2 := by
  induction rs generalizing l with
  | nil => exact hInv
  | cons r rs ih =>
      exact ih (fun r hr => hg r (List.mem_cons_of_mem _ hr))
        (applyNobodyOutcome_inv (hg r (List.mem_cons_self ..)) hInv)

theorem runCall_preserve (c : AggCall) (l : List (Nat × UserStats)) (k : Nat)
    (s : UserStats) (h : lookupStats l k = some s) :
    ∃ t, lookupStats (runCall l c) k = some t ∧
      t.user_id = s.user_id ∧ t.username = s.username ∧ StatsLe s t := by
  cases c with
  | wordle rs => exact foldl_applyWordleOutcome_preserve rs l k s h
  | nobody rs => exact foldl_applyNobodyOutcome_preserve rs l k s h

theorem runCall_inv {c : AggCall} {l : List (Nat × UserStats)}
    (hg : ∀ r ∈ c.outcomes, 1 ≤ r.guesses) (hInv : ∀ p ∈ l, StatsInv p.2) :
    ∀ p ∈ runCall l c, StatsInv p.2 := by
  cases c with
  | wordle rs => exact foldl_applyWordleOutcome_inv hg hInv
  | nobody rs => exact foldl_applyNobodyOutcome_inv hg hInv

theorem runCalls_preserve (cs : List AggCall) (l : List (Nat × UserStats))
    (k : Nat) (s : UserStats) (h : lookupStats l k = some s) :
    ∃ t, lookupStats (runCalls l cs) k = some t ∧
      t.user_id = s.user_id ∧ t.username = s.username ∧ StatsLe s t := by
  induction cs generalizing l s with
  | nil => exact ⟨s, h, rfl, rfl, StatsLe.rfl s⟩
  | cons c cs ih =>
      obtain ⟨t, ht, hid, hname, hle⟩ := runCall_preserve c l k s h
      obtain ⟨u, hu, hid2, hname2, hle2⟩ := ih _ _ ht
      exact ⟨u, hu, hid2.trans hid, hname2.trans hname, hle.trans hle2⟩

theorem runCalls_inv {cs : List AggCall} {l : List (Nat × UserStats)}
    (hg : ∀ c ∈ cs, ∀ r ∈ c.outcomes, 1 ≤ r.guesses)
    (hInv : ∀ p ∈ l, StatsInv p.2) : ∀ p ∈ runCalls l cs, StatsInv p.2 := by
  induction cs generalizing l with
  | nil => exact hInv
  | cons c cs ih =>
      exact ih (fun c hc => hg c (List.mem_cons_of_mem _ hc))
        (runCall_inv (hg c (List.mem_cons_self ..)) hInv)

/-- C3: starting from an empty accumulator map, after any sequence of
aggregator calls (`process_wordle_message` / `process_nobody_got_wordle_message`
loop bodies) applied to any lists of outcomes with `guess_count >= 1`,
every accumulator entry satisfies `total_games == wins + losses` and
`total_guesses >= total_games`, and no counter of an existing entry ever
decreases over the rest of the sequence. -/
theorem aggregator_invariant (calls : List AggCall)
    (hg : ∀ c ∈ calls, ∀ r ∈ c.outcomes, 1 ≤ r.guesses) :
    (∀ p ∈ runCalls [] calls,
        p.2.total_games = p.2.wins + p.2.losses ∧
        p.2.total_games ≤ p.2.total_guesses) ∧
    (∀ pre post, calls = pre ++ post → ∀ uid s,
        lookupStats (runCalls [] pre) uid = some s →
        ∃ t, lookupStats (runCalls [] calls) uid = some t ∧
          s.total_games ≤ t.total_games ∧ s.total_guesses ≤ t.total_guesses ∧
          s.wins ≤ t.wins ∧ s.losses ≤ t.losses) := by
  constructor
  · exact fun p hp => runCalls_inv hg (by simp) p hp
  · intro pre post hsplit uid s hs
    subst hsplit
    have : runCalls [] (pre ++ post) = runCalls (runCalls [] pre) post := by
      simp [runCalls, List.foldl_append]
    rw [this]
    obtain ⟨t, ht, -, -, hle⟩ := runCalls_preserve post (runCalls [] pre) uid s hs
    exact ⟨t, ht, hle.1, hle.2.1, hle.2.2.1, hle.2.2.2⟩

/-- C3 witness: a concrete two-call pass satisfying the hypotheses. -/
theorem aggregator_invariant_witness :
    (∀ c ∈ [AggCall.wordle [⟨7, "a", true, 3⟩], AggCall.nobody [⟨7, "b", false, 6⟩]],
      ∀ r ∈ c.outcomes, 1 ≤ r.guesses) ∧
    (∀ p ∈ runCalls [] [AggCall.wordle [⟨7, "a", true, 3⟩],
        AggCall.nobody [⟨7, "b", false, 6⟩]],
      p.2.total_games = p.2.wins + p.2.losses ∧
      p.2.total_games ≤ p.2.total_guesses) :=
  ⟨by decide, (aggregator_invariant _ (by decide)).1⟩

/-- C10: once an accumulator entry exists for a player, folding any
further outcomes into the map (either loop body) preserves the entry's
`user_id` and `username`, even when later outcomes carry different
names; only the counters change. -/
theorem aggregator_identity_frozen (l : List (Nat × UserStats))
    (rs : List WordleGameResult) (uid : Nat) (s : UserStats)
    (h : lookupStats l uid = some s) :
    (∃ t, lookupStats (rs.foldl applyWordleOutcome l) uid = some t ∧
        t.user_id = s.user_id ∧ t.username = s.username) ∧
    (∃ t, lookupStats (rs.foldl applyNobodyOutcome l) uid = some t ∧
        t.user_id = s.user_id ∧ t.username = s.username) := by
  constructor
  · obtain ⟨t, ht, hid, hname, -⟩ := foldl_applyWordleOutcome_preserve rs l uid s h
    exact ⟨t, ht, hid, hname⟩
  · obtain ⟨t, ht, hid, hname, -⟩ := foldl_applyNobodyOutcome_preserve rs l uid s h
    exact ⟨t, ht, hid, hname⟩

/-- C10 witness: an existing entry named "Ann" keeps its name after an
outcome carrying the name "Bob". -/
theorem aggregator_identity_frozen_witness :
    lookupStats [(1, ⟨1, "Ann", 1, 3, 1, 0⟩)] 1 = some ⟨1, "Ann", 1, 3, 1, 0⟩ ∧
    (∃ t, lookupStats ([(⟨1, "Bob", true, 2⟩ : WordleGameResult)].foldl
        applyWordleOutcome [(1, ⟨1, "Ann", 1, 3, 1, 0⟩)]) 1 = some t ∧
      t.user_id = 1 ∧ t.username = "Ann") :=
  ⟨by decide, (aggregator_identity_frozen [(1, ⟨1, "Ann", 1, 3, 1, 0⟩)]
    [⟨1, "Bob", true, 2⟩] 1 ⟨1, "Ann", 1, 3, 1, 0⟩ (by decide)).1⟩

/-! ## C9: duplicate suppression is scoped to a single line -/

/-- `total_games` of an optional accumulator entry (0 when absent). -/
def gamesOf (o : Option UserStats) : Nat :=
  match o with
  | some s => s.total_games
  | none => 0

theorem applyWordleOutcome_games (l : List (Nat × UserStats))
    (res : WordleGameResult) :
    gamesOf (lookupStats (applyWordleOutcome l res) res.user_id) =
      gamesOf (lookupStats l res.user_id) + 1 := by
  simp only [applyWordleOutcome]
  rw [lookupStats_writeStats_self]
  cases hc : lookupStats l res.user_id with
  | none => simp [gamesOf, initialize_user_stats]
  | some s => simp [gamesOf]

/-- A results message with two distinct matching lines that both tag the
same player. -/
def c9msg : Message :=
  ⟨"Your group is on a 1 day streak\n3/6: <@123>\n5/6: <@123>".data, [], none⟩

/-- C9: duplicate suppression during parsing is scoped to a single
result line: a results message with two distinct matching lines tagging
the same player parses to one outcome per line (two in total), and
processing the message increments that player's `total_games` by 2 over
any prior accumulator map. -/
theorem duplicate_scope_is_per_line (l : List (Nat × UserStats)) :
    parse_wordle_message_content c9msg none =
      [⟨123, "User_123", true, 3⟩, ⟨123, "User_123", true, 5⟩] ∧
    gamesOf (lookupStats (process_wordle_message c9msg l none) 123) =
      gamesOf (lookupStats l 123) + 2 := by
  have hp : parse_wordle_message_content c9msg none =
      [⟨123, "User_123", true, 3⟩, ⟨123, "User_123", true, 5⟩] := by decide
  refine ⟨hp, ?_⟩
  unfold process_wordle_message
  rw [hp]
  simp only [List.foldl_cons, List.foldl_nil]
  have h1 := applyWordleOutcome_games l ⟨123, "User_123", true, 3⟩
  have h2 := applyWordleOutcome_games
    (applyWordleOutcome l ⟨123, "User_123", true, 3⟩) ⟨123, "User_123", true, 5⟩
  simp only [show (⟨123, "User_123", true, 3⟩ : WordleGameResult).user_id = 123 from rfl,
    show (⟨123, "User_123", true, 5⟩ : WordleGameResult).user_id = 123 from rfl] at h1 h2
  omega

/-! ## Decimal strings are injective (`str(user_id)`) -/

theorem digitChar_toNat {d : Nat} (h : d < 10) : (digitChar d).toNat = 48 + d := by
  interval_cases d <;> decide

theorem digitsToNat_append_digit (l : List Char) (c : Char) :
    digitsToNat (l ++ [c]) = 10 * digitsToNat l + (c.toNat - 48) := by
  simp [digitsToNat, List.foldl_append]

theorem digitsToNat_natDigitsAux (fuel n : Nat) (h : n < fuel) :
    digitsToNat (natDigitsAux fuel n) = n := by
  induction fuel generalizing n with
  | zero => omega
  | succ fuel ih =>
      unfold natDigitsAux
      split
      next h10 =>
        simp [digitsToNat, digitChar_toNat h10]
      next h10 =>
        have hlt : n / 10 < fuel := by
          have hds : n / 10 < n := Nat.div_lt_self (by omega) (by omega)
          omega
        rw [digitsToNat_append_digit, ih _ hlt,
          digitChar_toNat (Nat.mod_lt _ (by omega))]
        omega

theorem digitsToNat_natDigits (n : Nat) : digitsToNat (natDigits n) = n :=
  digitsToNat_natDigitsAux (n + 1) n (Nat.lt_succ_self n)

theorem natToString_inj {m n : Nat} (h : natToString m = natToString n) : m = n := by
  have hd : natDigits m = natDigits n := congrArg String.data h
  have := digitsToNat_natDigits m
  rw [hd, digitsToNat_natDigits] at this
  exact this.symm

/-! ## Store-path lemmas -/

/-- The write condition for one summary entry: no persisted record, or a
persisted record with strictly fewer total games. -/
def writesB (existing : List (Nat × UserStats)) (p : Nat × SummaryEntry) : Bool :=
  match lookupStats existing p.1 with
  | none => true
  | some db => decide (db.total_games < p.2.total_games)

theorem store_foldl_records_mem (existing : List (Nat × UserStats)) (ts : Int)
    (summary : List (Nat × SummaryEntry)) (acc : StoreOutcome) (r : StatsRecord) :
    r ∈ (summary.foldl (storeStep existing ts) acc).records ↔
      r ∈ acc.records ∨
        ∃ p ∈ summary, writesB existing p = true ∧ r = mkRecord ts p.1 p.2 := by
  induction summary generalizing acc with
  | nil => simp
  | cons p ps ih =>
      simp only [List.foldl_cons]
      rw [ih]
      cases hc : lookupStats existing p.1 with
      | none =>
          simp only [storeStep, hc, List.mem_append, List.mem_singleton, List.mem_cons,
            List.not_mem_nil, or_false]
          constructor
          · rintro ((h | rfl) | ⟨q, hq, hw, rfl⟩)
            · exact Or.inl h
            · exact Or.inr ⟨p, Or.inl rfl, by simp [writesB, hc], rfl⟩
            · exact Or.inr ⟨q, Or.inr hq, hw, rfl⟩
          · rintro (h | ⟨q, hq | hq, hw, rfl⟩)
            · exact Or.inl (Or.inl h)
            · subst hq
              exact Or.inl (Or.inr rfl)
            · exact Or.inr ⟨q, hq, hw, rfl⟩
      | some db =>
          by_cases hlt : db.total_games < p.2.total_games
          · simp only [storeStep, hc, if_pos hlt, List.mem_append, List.mem_singleton,
              List.mem_cons, List.not_mem_nil, or_false]
            constructor
            · rintro ((h | rfl) | ⟨q, hq, hw, rfl⟩)
              · exact Or.inl h
              · exact Or.inr ⟨p, Or.inl rfl, by simp [writesB, hc, hlt], rfl⟩
              · exact Or.inr ⟨q, Or.inr hq, hw, rfl⟩
            · rintro (h | ⟨q, hq | hq, hw, rfl⟩)
              · exact Or.inl (Or.inl h)
              · subst hq
                exact Or.inl (Or.inr rfl)
              · exact Or.inr ⟨q, hq, hw, rfl⟩
          · simp only [storeStep, hc, if_neg hlt, List.mem_cons]
            constructor
            · rintro (h | ⟨q, hq, hw, rfl⟩)
              · exact Or.inl h
              · exact Or.inr ⟨q, Or.inr hq, hw, rfl⟩
            · rintro (h | ⟨q, hq | hq, hw, rfl⟩)
              · exact Or.inl h
              · subst hq
                rw [writesB, hc] at hw
                simp [hlt] at hw
              · exact Or.inr ⟨q, hq, hw, rfl⟩

theorem storeStep_eq_add {existing : List (Nat × UserStats)} {p : Nat × SummaryEntry}
    (h : lookupStats existing p.1 = none) (ts : Int) (acc : StoreOutcome) :
    storeStep existing ts acc p =
      ⟨acc.records ++ [mkRecord ts p.1 p.2], acc.added + 1, acc.updated, acc.skipped⟩ := by
  simp [storeStep, h]

theorem storeStep_eq_upd {existing : List (Nat × UserStats)} {p : Nat × SummaryEntry}
    {db : UserStats} (h : lookupStats existing p.1 = some db)
    (hlt : db.total_games < p.2.total_games) (ts : Int) (acc : StoreOutcome) :
    storeStep existing ts acc p =
      ⟨acc.records ++ [mkRecord ts p.1 p.2], acc.added, acc.updated + 1, acc.skipped⟩ := by
  simp [storeStep, h, hlt]

theorem storeStep_eq_skip {existing : List (Nat × UserStats)} {p : Nat × SummaryEntry}
    {db : UserStats} (h : lookupStats existing p.1 = some db)
    (hge : ¬db.total_games < p.2.total_games) (ts : Int) (acc : StoreOutcome) :
    storeStep existing ts acc p =
      ⟨acc.records, acc.added, acc.updated, acc.skipped + 1⟩ := by
  simp [storeStep, h, hge]

theorem store_foldl_counts (existing : List (Nat × UserStats)) (ts : Int)
    (summary : List (Nat × SummaryEntry)) (acc : StoreOutcome) :
    (summary.foldl (storeStep existing ts) acc).added +
      (summary.foldl (storeStep existing ts) acc).updated +
      (summary.foldl (storeStep existing ts) acc).skipped =
      acc.added + acc.updated + acc.skipped + summary.length := by
  induction summary generalizing acc with
  | nil => simp
  | cons p ps ih =>
      simp only [List.foldl_cons, List.length_cons]
      cases hc : lookupStats existing p.1 with
      | none => rw [storeStep_eq_add hc, ih]; dsimp only; omega
      | some db =>
          by_cases hlt : db.total_games < p.2.total_games
          · rw [storeStep_eq_upd hc hlt, ih]; dsimp only; omega
          · rw [storeStep_eq_skip hc hlt, ih]; dsimp only; omega

theorem mem_calculate {us : List (Nat × UserStats)} {uid : Nat} {e : SummaryEntry} :
    (uid, e) ∈ calculate_statistics us ↔
      ∃ st, (uid, st) ∈ us ∧ e = mkSummary uid st := by
  simp only [calculate_statistics, List.mem_map, Prod.mk.injEq]
  constructor
  · rintro ⟨⟨a, b⟩, hp, rfl, h2⟩
    exact ⟨b, hp, h2.symm⟩
  · rintro ⟨st, hmem, rfl⟩
    exact ⟨(uid, st), hmem, rfl, rfl⟩

theorem nodup_lookupStats {us : List (Nat × UserStats)} {uid : Nat} {st : UserStats}
    (hnd : (us.map Prod.fst).Nodup) (h : (uid, st) ∈ us) :
    lookupStats us uid = some st := by
  induction us with
  | nil => simp at h
  | cons p ps ih =>
      simp only [List.map_cons, List.nodup_cons] at hnd
      rcases List.mem_cons.1 h with rfl | hmem
      · simp [lookupStats, List.find?]
      · have hne : p.1 ≠ uid := by
          intro he
          exact hnd.1 (he ▸ List.mem_map.2 ⟨(uid, st), hmem, rfl⟩)
        simp only [lookupStats, List.find?]
        rw [show (p.1 == uid) = false by simpa using hne]
        exact ih hnd.2 hmem

/-- C1: a player in the locally computed stats is in the write-set of
the batch upsert iff no persisted record exists or the persisted
`total_games` is strictly less than the local one; a player with local
`total_games <= persisted` contributes nothing; and the added, updated
and skipped counts classify each local player into exactly one class. -/
theorem reconciliation_write_set (now : Int)
    (us existing : List (Nat × UserStats))
    (hnd : (us.map Prod.fst).Nodup) (uid : Nat) (st : UserStats)
    (h : lookupStats us uid = some st) :
    ((∃ r ∈ (store_user_stats_in_supabase now us existing).records,
        r.user_id = natToString uid) ↔
      (lookupStats existing uid = none ∨
        ∃ db, lookupStats existing uid = some db ∧
          db.total_games < st.total_games)) ∧
    (store_user_stats_in_supabase now us existing).added +
        (store_user_stats_in_supabase now us existing).updated +
        (store_user_stats_in_supabase now us existing).skipped = us.length := by
  constructor
  · rw [show (store_user_stats_in_supabase now us existing).records =
        ((calculate_statistics us).foldl
          (storeStep existing (now - SECONDS_PER_DAY)) ⟨[], 0, 0, 0⟩).records from rfl]
    constructor
    · rintro ⟨r, hr, huid⟩
      rw [store_foldl_records_mem] at hr
      rcases hr with h0 | ⟨p, hp, hw, rfl⟩
      · simp at h0
      · have hpuid : p.1 = uid := natToString_inj huid
        subst hpuid
        obtain ⟨st', hmem', he⟩ := mem_calculate.1
          (show (p.1, p.2) ∈ calculate_statistics us from hp)
        have hst : st' = st :=
          Option.some.inj ((nodup_lookupStats hnd hmem').symm.trans h)
        subst hst
        rw [writesB] at hw
        cases hc : lookupStats existing p.1 with
        | none => exact Or.inl rfl
        | some db =>
            rw [hc] at hw
            simp only [decide_eq_true_eq] at hw
            refine Or.inr ⟨db, rfl, ?_⟩
            rw [he] at hw
            exact hw
    · intro hcond
      have hmem : (uid, st) ∈ us := lookupStats_mem h
      have hcalc : (uid, mkSummary uid st) ∈ calculate_statistics us :=
        mem_calculate.2 ⟨st, hmem, rfl⟩
      have hw : writesB existing (uid, mkSummary uid st) = true := by
        rw [writesB]
        rcases hcond with hc | ⟨db, hc, hlt⟩
        · rw [hc]
        · rw [hc]
          simpa [mkSummary] using hlt
      exact ⟨mkRecord (now - SECONDS_PER_DAY) uid (mkSummary uid st),
        (store_foldl_records_mem ..).2 (Or.inr ⟨_, hcalc, hw, rfl⟩), rfl⟩
  · have := store_foldl_counts existing (now - SECONDS_PER_DAY)
      (calculate_statistics us) ⟨[], 0, 0, 0⟩
    simp only [store_user_stats_in_supabase]
    rw [this]
    simp [calculate_statistics]

/-- C1 witness: one local player with fewer games than the persisted
record is skipped, and the counts add up. -/
theorem reconciliation_write_set_witness :
    (([(1, (⟨1, "a", 2, 4, 2, 0⟩ : UserStats))].map Prod.fst).Nodup ∧
      lookupStats [(1, ⟨1, "a", 2, 4, 2, 0⟩)] 1 = some ⟨1, "a", 2, 4, 2, 0⟩) ∧
    (((∃ r ∈ (store_user_stats_in_supabase 1000 [(1, ⟨1, "a", 2, 4, 2, 0⟩)]
        [(1, ⟨1, "a", 3, 9, 1, 2⟩)]).records, r.user_id = natToString 1) ↔
      (lookupStats [(1, (⟨1, "a", 3, 9, 1, 2⟩ : UserStats))] 1 = none ∨
        ∃ db, lookupStats [(1, (⟨1, "a", 3, 9, 1, 2⟩ : UserStats))] 1 = some db ∧
          db.total_games < 2)) ∧
      (store_user_stats_in_supabase 1000 [(1, ⟨1, "a", 2, 4, 2, 0⟩)]
          [(1, ⟨1, "a", 3, 9, 1, 2⟩)]).added +
        (store_user_stats_in_supabase 1000 [(1, ⟨1, "a", 2, 4, 2, 0⟩)]
          [(1, ⟨1, "a", 3, 9, 1, 2⟩)]).updated +
        (store_user_stats_in_supabase 1000 [(1, ⟨1, "a", 2, 4, 2, 0⟩)]
          [(1, ⟨1, "a", 3, 9, 1, 2⟩)]).skipped = 1) :=
  ⟨⟨by decide, by decide⟩,
    reconciliation_write_set 1000 [(1, ⟨1, "a", 2, 4, 2, 0⟩)]
      [(1, ⟨1, "a", 3, 9, 1, 2⟩)] (by decide) 1 ⟨1, "a", 2, 4, 2, 0⟩ (by decide)⟩

/-- C8: every record of the write-set (newly added or updated) carries a
`last_updated_date` equal to the write's wall-clock time minus exactly
one day (86400 s), and all records of one batch share that single
timestamp. -/
theorem reconciliation_backdated_timestamp (now : Int)
    (us existing : List (Nat × UserStats)) (r : StatsRecord)
    (h : r ∈ (store_user_stats_in_supabase now us existing).records) :
    r.last_updated_date = now - 86400 ∧
    ∀ r' ∈ (store_user_stats_in_supabase now us existing).records,
      r'.last_updated_date = r.last_updated_date := by
  have hdate : ∀ q ∈ (store_user_stats_in_supabase now us existing).records,
      q.last_updated_date = now - 86400 := by
    intro q hq
    rw [show (store_user_stats_in_supabase now us existing).records =
        ((calculate_statistics us).foldl
          (storeStep existing (now - SECONDS_PER_DAY)) ⟨[], 0, 0, 0⟩).records from rfl,
      store_foldl_records_mem] at hq
    rcases hq with h0 | ⟨p, -, -, rfl⟩
    · simp at h0
    · rfl
  exact ⟨hdate r h, fun r' hr' => (hdate r' hr').trans (hdate r h).symm⟩

/-- C8 witness: the single record written for a new player at wall-clock
time 1000 is stamped 1000 - 86400. -/
theorem reconciliation_backdated_timestamp_witness :
    mkRecord (1000 - SECONDS_PER_DAY) 1 (mkSummary 1 ⟨1, "a", 1, 3, 1, 0⟩) ∈
      (store_user_stats_in_supabase 1000 [(1, ⟨1, "a", 1, 3, 1, 0⟩)] []).records ∧
    (mkRecord (1000 - SECONDS_PER_DAY) 1
        (mkSummary 1 ⟨1, "a", 1, 3, 1, 0⟩)).last_updated_date = 1000 - 86400 := by
  have hmem : mkRecord (1000 - SECONDS_PER_DAY) 1 (mkSummary 1 ⟨1, "a", 1, 3, 1, 0⟩) ∈
      (store_user_stats_in_supabase 1000 [(1, ⟨1, "a", 1, 3, 1, 0⟩)] []).records :=
    (store_foldl_records_mem [] (1000 - SECONDS_PER_DAY)
        [(1, mkSummary 1 ⟨1, "a", 1, 3, 1, 0⟩)] ⟨[], 0, 0, 0⟩ _).2
      (Or.inr ⟨(1, mkSummary 1 ⟨1, "a", 1, 3, 1, 0⟩),
        List.mem_singleton.2 rfl, rfl, rfl⟩)
  exact ⟨hmem,
    (reconciliation_backdated_timestamp 1000 [(1, ⟨1, "a", 1, 3, 1, 0⟩)] [] _ hmem).1⟩

/-! ## C4 and C5: result-line and no-winner parsing -/

theorem lineUsers_fst {g : Char} {rest : List Char} {g' : Char} {us : List Char}
    (h : lineUsers g rest = some (g', us)) : g' = g := by
  unfold lineUsers at h
  split at h
  · split at h
    · exact absurd h (by simp)
    · simp only [Option.some.injEq, Prod.mk.injEq] at h
      exact h.1.symm
  · split at h
    · simp only [Option.some.injEq, Prod.mk.injEq] at h
      exact h.1.symm
    · exact absurd h (by simp)

theorem lineMatch_token {line : List Char} {g : Char} {users : List Char}
    (h : lineMatch line = some (g, users)) : isGuessTok g = true := by
  unfold lineMatch at h
  split at h
  · split at h
    next hcond =>
      obtain rfl := lineUsers_fst h
      simp only [Bool.and_eq_true] at hcond
      exact hcond.1.1.1
    next => exact absurd h (by simp)
  · exact absurd h (by simp)

theorem lineOutcomes_fields (mentions : List Member) (guild : Option Guild)
    (g : Char) (usersStr : List Char) :
    ∀ r ∈ lineOutcomes mentions guild g usersStr,
      r.won = (tokenMeaning g).1 ∧ r.guesses = (tokenMeaning g).2 := by
  intro r hr
  simp only [lineOutcomes] at hr
  rcases List.mem_append.1 hr with hm | hm <;>
    obtain ⟨x, -, rfl⟩ := List.mem_map.1 hm <;> exact ⟨rfl, rfl⟩

/-- C4: on every line of a results message whose stripped text matches
the result-line regex, the guess token is a digit `1`-`6` or `X`; a
digit `d` makes every outcome of the line `won = true`,
`guess_count = d`, while `X` makes every outcome `won = false`,
`guess_count = 6`; all outcomes of one line share the line's
`won`/`guess_count`; and a non-matching line yields no outcomes. -/
theorem result_line_parse (mentions : List Member) (guild : Option Guild)
    (line : List Char) :
    (∀ g users, lineMatch (pyStrip line) = some (g, users) →
      (g = 'X' ∨ ('1' ≤ g ∧ g ≤ '6')) ∧
      (∀ r ∈ parseLine mentions guild line,
        (g = 'X' → r.won = false ∧ r.guesses = 6) ∧
        (g ≠ 'X' → r.won = true ∧ r.guesses = g.toNat - 48)) ∧
      (∀ r ∈ parseLine mentions guild line, ∀ r' ∈ parseLine mentions guild line,
        r.won = r'.won ∧ r.guesses = r'.guesses)) ∧
    (lineMatch (pyStrip line) = none → parseLine mentions guild line = []) := by
  constructor
  · intro g users h
    have htok := lineMatch_token h
    have hline : parseLine mentions guild line = lineOutcomes mentions guild g users := by
      unfold parseLine
      have hne : (pyStrip line).isEmpty = false := by
        cases he : (pyStrip line).isEmpty
        · rfl
        · rw [List.isEmpty_iff] at he
          rw [he] at h
          simp [lineMatch, dropCrown, stripLead] at h
      rw [if_neg (by simp [hne]), h]
    refine ⟨?_, ?_, ?_⟩
    · simp only [isGuessTok, Bool.or_eq_true, beq_iff_eq, Bool.and_eq_true,
        decide_eq_true_eq] at htok
      exact htok
    · intro r hr
      rw [hline] at hr
      obtain ⟨hw, hg⟩ := lineOutcomes_fields mentions guild g users r hr
      constructor
      · intro hx
        subst hx
        rw [hw, hg]
        exact ⟨rfl, rfl⟩
      · intro hx
        rw [hw, hg]
        simp only [tokenMeaning]
        rw [if_neg (by simpa using hx)]
        exact ⟨rfl, rfl⟩
    · intro r hr r' hr'
      rw [hline] at hr hr'
      obtain ⟨hw, hg⟩ := lineOutcomes_fields mentions guild g users r hr
      obtain ⟨hw', hg'⟩ := lineOutcomes_fields mentions guild g users r' hr'
      exact ⟨hw.trans hw'.symm, hg.trans hg'.symm⟩
  · intro h
    unfold parseLine
    split
    · rfl
    · rw [h]

/-- C4 witness: the line `3/6: <@5>` parses with a digit token and its
outcome has `won = true`, `guess_count = 3`. -/
theorem result_line_parse_witness :
    lineMatch (pyStrip "3/6: <@5>".data) = some ('3', "<@5>".data) ∧
    ((⟨5, "Eve", true, 3⟩ : WordleGameResult).won = true ∧
      (⟨5, "Eve", true, 3⟩ : WordleGameResult).guesses = '3'.toNat - 48) := by
  have h := ((result_line_parse [⟨5, "Eve", "Eve"⟩] none "3/6: <@5>".data).1
    '3' "<@5>".data (by decide)).2.1
  have hm : (⟨5, "Eve", true, 3⟩ : WordleGameResult) ∈
      parseLine [⟨5, "Eve", "Eve"⟩] none "3/6: <@5>".data := by decide
  exact ⟨by decide, (h _ hm).2 (by decide)⟩

/-- C5: a message whose content is empty or does not contain the
"nobody" marker parses to no outcomes; otherwise every player resolved
from the content yields exactly one outcome with `won = false`,
`guess_count = 6`. -/
theorem nobody_parse (msg : Message) (ov : Option Guild) :
    (msg.content = [] → parse_nobody_message_content msg ov = []) ∧
    (containsNobody msg.content = false → parse_nobody_message_content msg ov = []) ∧
    (msg.content ≠ [] → containsNobody msg.content = true →
      parse_nobody_message_content msg ov =
        (extract_users_from_content msg msg.content ov).map
          (fun u => ⟨u.id, u.name, false, 6⟩)) := by
  refine ⟨?_, ?_, ?_⟩
  · intro h
    simp [parse_nobody_message_content, h]
  · intro h
    unfold parse_nobody_message_content
    split
    · rfl
    · rw [if_pos (by simp [h])]
  · intro h1 h2
    unfold parse_nobody_message_content
    rw [if_neg (by simpa using h1), if_neg (by simp [h2])]
    rfl

/-- A concrete no-winner message resolving one plain-text mention. -/
def c5msg : Message :=
  ⟨"Nobody got yesterday's Wordle @Ann".data, [], some ⟨[⟨1, "Ann", "Ann"⟩], []⟩⟩

/-- C5 witness: the marker message with a resolvable `@Ann` yields
exactly one losing outcome with six guesses. -/
theorem nobody_parse_witness :
    (c5msg.content ≠ [] ∧ containsNobody c5msg.content = true) ∧
    parse_nobody_message_content c5msg none = [⟨1, "Ann", false, 6⟩] := by
  refine ⟨⟨by decide, by decide⟩, ?_⟩
  rw [(nobody_parse c5msg none).2.2 (by decide) (by decide)]
  decide

/-! ## C2: explicit tagged references -/

theorem lookupMention_id {mentions : List Member} {guild : Option Guild}
    {uid : Nat} {u : Member} (h : lookupMention mentions guild uid = some u) :
    u.id = uid := by
  unfold lookupMention at h
  split at h
  next heq =>
    obtain rfl := Option.some.inj h
    simpa using List.find?_some heq
  next =>
    split at h
    · split at h
      next heq =>
        obtain rfl := Option.some.inj h
        simpa using List.find?_some heq
      next => simpa using List.find?_some h
    · exact absurd h (by simp)

theorem resolveExplicitRefs_perm (mentions : List Member) (guild : Option Guild)
    (ids : List Nat) :
    ((resolveExplicitRefs mentions guild ids).1.map Member.id ++
      (resolveExplicitRefs mentions guild ids).2.map Prod.fst).Perm ids := by
  induction ids with
  | nil => simp [resolveExplicitRefs]
  | cons uid rest ih =>
      simp only [resolveExplicitRefs]
      cases hc : lookupMention mentions guild uid with
      | some u =>
          simpa [lookupMention_id hc] using ih.cons uid
      | none =>
          exact List.perm_middle.trans (ih.cons uid)

theorem resolveExplicitRefs_placeholder (mentions : List Member)
    (guild : Option Guild) (ids : List Nat) :
    ∀ q ∈ (resolveExplicitRefs mentions guild ids).2,
      q.2 = "User_" ++ natToString q.1 := by
  induction ids with
  | nil => simp [resolveExplicitRefs]
  | cons uid rest ih =>
      simp only [resolveExplicitRefs]
      cases hc : lookupMention mentions guild uid with
      | some u => exact ih
      | none =>
          intro q hq
          rcases List.mem_cons.1 hq with rfl | hq
          · rfl
          · exact ih q hq

theorem plainTextPhase_extends (gm : List Member) (found : List Member)
    (ws : List (List Char)) :
    ∃ extra, plainTextPhase gm found ws = found ++ extra := by
  induction ws generalizing found with
  | nil => exact ⟨[], by simp [plainTextPhase]⟩
  | cons w ws ih =>
      simp only [plainTextPhase]
      split
      · exact ih found
      · cases resolveWindow gm found (pyStrip w) with
        | some u =>
            obtain ⟨extra, hextra⟩ := ih (found ++ [u])
            refine ⟨[u] ++ extra, ?_⟩
            show plainTextPhase gm (found ++ [u]) ws = _
            rw [hextra, List.append_assoc]
        | none => exact ih found

theorem resolveExplicitRefs_count (mentions : List Member) (guild : Option Guild)
    (ids : List Nat) (uid : Nat) :
    ids.count uid =
      (resolveExplicitRefs mentions guild ids).1.countP (fun m => m.id == uid) +
      (resolveExplicitRefs mentions guild ids).2.countP (fun q => q.1 == uid) := by
  induction ids with
  | nil => simp [resolveExplicitRefs]
  | cons v rest ih =>
      simp only [resolveExplicitRefs]
      cases hc : lookupMention mentions guild v with
      | some u =>
          rw [List.count_cons, List.countP_cons]
          simp only [lookupMention_id hc, beq_iff_eq]
          rw [ih]
          split <;> omega
      | none =>
          rw [List.count_cons, List.countP_cons]
          simp only [beq_iff_eq]
          rw [ih]
          split <;> omega

theorem countP_map_outcome (l : List Member) (won : Bool) (guesses uid : Nat) :
    (l.map (fun u => (⟨u.id, u.name, won, guesses⟩ : WordleGameResult))).countP
      (fun r => r.user_id == uid) = l.countP (fun m => m.id == uid) := by
  induction l with
  | nil => rfl
  | cons m l ih => simp [List.countP_cons, ih]

theorem countP_map_placeholder (l : List (Nat × String)) (won : Bool)
    (guesses uid : Nat) :
    (l.map (fun p => (⟨p.1, p.2, won, guesses⟩ : WordleGameResult))).countP
      (fun r => r.user_id == uid) = l.countP (fun q => q.1 == uid) := by
  induction l with
  | nil => rfl
  | cons q l ih => simp [List.countP_cons, ih]

/-- A no-winner message whose only player reference is an explicit
tagged id resolvable neither through `message.mentions`, the member
cache, nor a remote fetch. -/
def c2msg : Message :=
  ⟨"Nobody got yesterday's Wordle <@999>".data, [], some ⟨[], []⟩⟩

/-- C2 counterexample: on a no-winner message, an unresolvable explicit
tagged reference is dropped — the message carries exactly one explicit
reference yet parsing yields no outcome at all (bot.py lines 286-310
only log the failure on this path). -/
theorem explicit_refs_c2_counterexample :
    mentionIds c2msg.content = [999] ∧
    parse_nobody_message_content c2msg none = [] := by decide

/-- C2 as amended: in a results line, every explicit tagged reference
contributes exactly one identity — the resolved members and the
placeholder pairs together are a permutation of the referenced ids,
every placeholder is `{id, "User_<id>"}`, and each referenced id
contributes at least its number of occurrences to the outcomes of the
line (the no-winner path, by contrast, keeps only resolvable
references, per the counterexample). -/
theorem explicit_refs_placeholder_on_results (mentions : List Member)
    (guild : Option Guild) (usersStr : List Char) :
    (((resolveExplicitRefs mentions guild (mentionIds usersStr)).1.map Member.id ++
      (resolveExplicitRefs mentions guild (mentionIds usersStr)).2.map Prod.fst).Perm
        (mentionIds usersStr)) ∧
    (∀ q ∈ (resolveExplicitRefs mentions guild (mentionIds usersStr)).2,
      q.2 = "User_" ++ natToString q.1) ∧
    (∀ g : Char, ∀ uid : Nat,
      (mentionIds usersStr).count uid ≤
        (lineOutcomes mentions guild g usersStr).countP
          (fun r => r.user_id == uid)) := by
  refine ⟨resolveExplicitRefs_perm mentions guild (mentionIds usersStr),
    resolveExplicitRefs_placeholder mentions guild (mentionIds usersStr), ?_⟩
  intro g uid
  cases guild with
  | none =>
      have hids := resolveExplicitRefs_count mentions none (mentionIds usersStr) uid
      simp only [lineOutcomes]
      rw [List.countP_append, countP_map_outcome, countP_map_placeholder, hids]
  | some gd =>
      have hids := resolveExplicitRefs_count mentions (some gd) (mentionIds usersStr) uid
      obtain ⟨extra, hex⟩ := plainTextPhase_extends gd.members
        (resolveExplicitRefs mentions (some gd) (mentionIds usersStr)).1
        (atWindows (removeMentions usersStr))
      simp only [lineOutcomes]
      rw [hex, List.countP_append, countP_map_outcome, countP_map_placeholder,
        List.countP_append, hids]
      omega

/-- C2 amended witness: a line text with one resolvable and one
unresolvable explicit reference: the resolved ids plus placeholder ids
are a permutation of the referenced ids, and the placeholder is
`User_999`. -/
theorem explicit_refs_placeholder_on_results_witness :
    (((resolveExplicitRefs [⟨5, "Eve", "Eve"⟩] (some ⟨[], []⟩)
        (mentionIds "<@5> <@999>".data)).1.map Member.id ++
      (resolveExplicitRefs [⟨5, "Eve", "Eve"⟩] (some ⟨[], []⟩)
        (mentionIds "<@5> <@999>".data)).2.map Prod.fst).Perm
        (mentionIds "<@5> <@999>".data)) ∧
    ((999, "User_999") ∈ (resolveExplicitRefs [⟨5, "Eve", "Eve"⟩] (some ⟨[], []⟩)
        (mentionIds "<@5> <@999>".data)).2 ∧
      "User_999" = "User_" ++ natToString 999) := by
  refine ⟨(explicit_refs_placeholder_on_results [⟨5, "Eve", "Eve"⟩]
    (some ⟨[], []⟩) "<@5> <@999>".data).1, by decide, ?_⟩
  exact (explicit_refs_placeholder_on_results [⟨5, "Eve", "Eve"⟩]
    (some ⟨[], []⟩) "<@5> <@999>".data).2.1 (999, "User_999") (by decide)

/-! ## C6: characterizing the classifier's two marker regexes -/

theorem leadsWith_iff (pat : List Char) :
    ∀ l : List Char, leadsWith pat l = true ↔ ∃ q, l = pat ++ q := by
  induction pat with
  | nil =>
      intro l
      simp [leadsWith]
  | cons p ps ih =>
      intro l
      cases l with
      | nil => simp [leadsWith]
      | cons c cs =>
          simp only [leadsWith, Bool.and_eq_true, beq_iff_eq, ih, List.cons_append]
          constructor
          · rintro ⟨rfl, q, rfl⟩
            exact ⟨q, rfl⟩
          · rintro ⟨q, heq⟩
            injection heq with h1 h2
            exact ⟨h1.symm, q, h2⟩

theorem stripLead_eq_some_iff (pat : List Char) :
    ∀ cs r : List Char, stripLead pat cs = some r ↔ cs = pat ++ r := by
  induction pat with
  | nil =>
      intro cs r
      simp [stripLead, eq_comm]
  | cons p ps ih =>
      intro cs r
      cases cs with
      | nil => simp [stripLead]
      | cons c cs' =>
          simp only [stripLead, List.cons_append]
          by_cases hpc : p = c
          · rw [if_pos (by simpa using hpc), ih cs' r]
            subst hpc
            simp
          · rw [if_neg (by simpa using hpc)]
            constructor
            · intro h
              exact absurd h (by simp)
            · intro h
              injection h with h1 h2
              exact absurd h1.symm hpc

theorem containsSub_iff (pat : List Char) :
    ∀ cs : List Char, containsSub pat cs = true ↔ ∃ p q, cs = p ++ (pat ++ q) := by
  intro cs
  induction cs with
  | nil =>
      simp only [containsSub, leadsWith_iff]
      constructor
      · rintro ⟨q, hq⟩
        exact ⟨[], q, by simpa using hq⟩
      · rintro ⟨p, q, hq⟩
        rcases List.append_eq_nil.1 hq.symm with ⟨rfl, h2⟩
        exact ⟨q, by simpa using h2.symm⟩
  | cons c cs ih =>
      simp only [containsSub, Bool.or_eq_true, leadsWith_iff, ih]
      constructor
      · rintro (⟨q, hq⟩ | ⟨p, q, hq⟩)
        · exact ⟨[], q, by simpa using hq⟩
        · exact ⟨c :: p, q, by simp [hq]⟩
      · rintro ⟨p, q, hq⟩
        cases p with
        | nil => exact Or.inl ⟨q, by simpa using hq⟩
        | cons x xs =>
            injection hq with h1 h2
            exact Or.inr ⟨xs, q, h2⟩

theorem takeWhile_append_pos {α : Type} (p : α → Bool) (l1 : List α)
    (h : ∀ c ∈ l1, p c = true) (c2 : α) (hc2 : p c2 = false) (l2 : List α) :
    (l1 ++ c2 :: l2).takeWhile p = l1 ∧ (l1 ++ c2 :: l2).dropWhile p = c2 :: l2 := by
  induction l1 with
  | nil => simp [List.takeWhile_cons, List.dropWhile_cons, hc2]
  | cons d ds ih =>
      have hd : p d = true := h d (List.mem_cons_self ..)
      have := ih (fun c hc => h c (List.mem_cons_of_mem _ hc))
      simp [List.takeWhile_cons, List.dropWhile_cons, hd, this.1, this.2]

theorem streakTail_iff (r2 : List Char) :
    streakTail r2 = true ↔ ∃ ds q, ds ≠ [] ∧ (∀ c ∈ ds, c.isDigit = true) ∧
      r2 = ' ' :: (ds ++ (" day streak".data ++ q)) := by
  cases r2 with
  | nil => simp [streakTail]
  | cons c rest =>
      simp only [streakTail, Bool.and_eq_true, beq_iff_eq, leadsWith_iff,
        Bool.not_eq_true', List.isEmpty_eq_false]
      constructor
      · rintro ⟨⟨hc, hne⟩, q, hdrop⟩
        subst hc
        refine ⟨rest.takeWhile Char.isDigit, q, hne, ?_, ?_⟩
        · intro x hx
          exact List.mem_takeWhile_imp hx
        · rw [← hdrop, List.takeWhile_append_dropWhile]
      · rintro ⟨ds, q, hne, hdig, heq⟩
        injection heq with h1 h2
        subst h1
        have hsplit : ds ++ (" day streak".data ++ q) =
            ds ++ ' ' :: ("day streak".data ++ q) := rfl
        rw [hsplit] at h2
        subst h2
        obtain ⟨htake, hdrop⟩ :=
          takeWhile_append_pos Char.isDigit ds hdig ' ' (by decide)
            ("day streak".data ++ q)
        rw [htake, hdrop]
        exact ⟨⟨rfl, hne⟩, q, rfl⟩

theorem append_cancel_left' {as bs cs : List Char} (h : as ++ bs = as ++ cs) :
    bs = cs := by
  induction as with
  | nil => simpa using h
  | cons a as ih =>
      injection h with h1 h2
      exact ih h2

theorem streak_lit_a (X : List Char) :
    "Your group is on a".data ++ X =
      "Your group is on ".data ++ (['a'] ++ X) := by
  have h1 : "Your group is on ".data ++ ['a'] = "Your group is on a".data := by decide
  rw [← List.append_assoc, h1]

theorem streak_lit_an (X : List Char) :
    "Your group is on a".data ++ ('n' :: X) =
      "Your group is on ".data ++ (['a', 'n'] ++ X) := by
  have h1 : "Your group is on ".data ++ ['a', 'n'] =
      "Your group is on a".data ++ ['n'] := by decide
  rw [← List.append_assoc, h1, List.append_assoc]
  rfl

theorem streakMatchAt_iff (cs : List Char) :
    streakMatchAt cs = true ↔ ∃ art ds q, (art = ['a'] ∨ art = ['a', 'n']) ∧
      ds ≠ [] ∧ (∀ c ∈ ds, c.isDigit = true) ∧
      cs = "Your group is on ".data ++
        (art ++ (' ' :: (ds ++ (" day streak".data ++ q)))) := by
  cases hs : stripLead "Your group is on a".data cs with
  | none =>
      have hL : streakMatchAt cs = false := by
        unfold streakMatchAt
        rw [hs]
      rw [hL]
      simp only [Bool.false_eq_true, false_iff]
      rintro ⟨art, ds, q, hart, -, -, heq⟩
      rcases hart with rfl | rfl
      · have h2 : cs = "Your group is on a".data ++
            (' ' :: (ds ++ (" day streak".data ++ q))) := by
          rw [heq, ← streak_lit_a]
        have h3 := (stripLead_eq_some_iff "Your group is on a".data cs _).2 h2
        rw [hs] at h3
        exact absurd h3 (by simp)
      · have h2 : cs = "Your group is on a".data ++
            ('n' :: (' ' :: (ds ++ (" day streak".data ++ q)))) := by
          rw [heq, ← streak_lit_an]
        have h3 := (stripLead_eq_some_iff "Your group is on a".data cs _).2 h2
        rw [hs] at h3
        exact absurd h3 (by simp)
  | some r =>
      have hcs : cs = "Your group is on a".data ++ r :=
        (stripLead_eq_some_iff _ _ _).1 hs
      subst hcs
      have hL : streakMatchAt ("Your group is on a".data ++ r) =
          streakTail (if r.head? == some 'n' then r.tail else r) := by
        unfold streakMatchAt
        rw [hs]
      rw [hL, streakTail_iff]
      constructor
      · rintro ⟨ds, q, hne, hdig, heq⟩
        by_cases hn : r.head? = some 'n'
        · obtain ⟨t, rfl⟩ : ∃ t, r = 'n' :: t := by
            cases r with
            | nil => simp at hn
            | cons x xs =>
                simp only [List.head?_cons, Option.some.injEq] at hn
                exact ⟨xs, by rw [hn]⟩
          have heq' : t = ' ' :: (ds ++ (" day streak".data ++ q)) := heq
          refine ⟨['a', 'n'], ds, q, Or.inr rfl, hne, hdig, ?_⟩
          rw [heq', streak_lit_an]
        · rw [if_neg (by simpa using hn)] at heq
          refine ⟨['a'], ds, q, Or.inl rfl, hne, hdig, ?_⟩
          rw [heq, streak_lit_a]
      · rintro ⟨art, ds, q, hart, hne, hdig, heq⟩
        rcases hart with rfl | rfl
        · rw [← streak_lit_a] at heq
          obtain rfl := append_cancel_left' heq
          exact ⟨ds, q, hne, hdig, rfl⟩
        · rw [← streak_lit_an] at heq
          obtain rfl := append_cancel_left' heq
          exact ⟨ds, q, hne, hdig, rfl⟩

theorem searchStreak_iff (cs : List Char) :
    searchStreak cs = true ↔
      ∃ pre suf, cs = pre ++ suf ∧ streakMatchAt suf = true := by
  induction cs with
  | nil =>
      constructor
      · intro h
        exact absurd h (by simp [searchStreak])
      · rintro ⟨pre, suf, heq, hm⟩
        rcases List.append_eq_nil.1 heq.symm with ⟨rfl, rfl⟩
        exact absurd hm (by decide)
  | cons c cs ih =>
      simp only [searchStreak, Bool.or_eq_true, ih]
      constructor
      · rintro (hm | ⟨pre, suf, rfl, hm⟩)
        · exact ⟨[], c :: cs, rfl, hm⟩
        · exact ⟨c :: pre, suf, rfl, hm⟩
      · rintro ⟨pre, suf, heq, hm⟩
        cases pre with
        | nil =>
            left
            rw [show suf = c :: cs from by simpa using heq.symm] at hm
            exact hm
        | cons x xs =>
            injection heq with h1 h2
            exact Or.inr ⟨xs, suf, h2, hm⟩

/-- The streak-marker condition of the classifier claim (amended): the
text contains, case-sensitively, `Your group is on a|an <digits> day
streak`, the day count being one or more digits (possibly zero). -/
def StreakProp (cs : List Char) : Prop :=
  ∃ pre art ds q, (art = ['a'] ∨ art = ['a', 'n']) ∧ ds ≠ [] ∧
    (∀ c ∈ ds, c.isDigit = true) ∧
    cs = pre ++ ("Your group is on ".data ++
      (art ++ (' ' :: (ds ++ (" day streak".data ++ q)))))

/-- The nobody-marker condition of the classifier claim: the lowercased
text contains the lowercased marker phrase. -/
def NobodyProp (cs : List Char) : Prop :=
  ∃ pre q, pyLower cs = pre ++ (nobodyPat ++ q)

theorem searchStreak_iff_prop (cs : List Char) :
    searchStreak cs = true ↔ StreakProp cs := by
  rw [searchStreak_iff]
  constructor
  · rintro ⟨pre, suf, rfl, hm⟩
    obtain ⟨art, ds, q, hart, hne, hdig, rfl⟩ := (streakMatchAt_iff suf).1 hm
    exact ⟨pre, art, ds, q, hart, hne, hdig, rfl⟩
  · rintro ⟨pre, art, ds, q, hart, hne, hdig, rfl⟩
    exact ⟨pre, _, rfl,
      (streakMatchAt_iff _).2 ⟨art, ds, q, hart, hne, hdig, rfl⟩⟩

theorem containsNobody_iff_prop (cs : List Char) :
    containsNobody cs = true ↔ NobodyProp cs := by
  unfold containsNobody NobodyProp
  exact containsSub_iff nobodyPat (pyLower cs)

/-- C6 as amended: classification is `Results` iff the text is nonempty
and contains the case-sensitive streak marker with a day count of one or
more digits (possibly `0`); `NoWinner` iff the text is nonempty, the
streak marker is absent and the case-insensitive nobody marker is
present; `Unrecognized` exactly otherwise, and always on empty/missing
text. -/
theorem classifier_characterization (cs : List Char) :
    (classify cs = MessageClass.Results ↔ cs ≠ [] ∧ StreakProp cs) ∧
    (classify cs = MessageClass.NoWinner ↔
      cs ≠ [] ∧ ¬StreakProp cs ∧ NobodyProp cs) ∧
    (cs = [] → classify cs = MessageClass.Unrecognized) ∧
    (classify cs = MessageClass.Unrecognized ↔
      cs = [] ∨ (¬StreakProp cs ∧ ¬NobodyProp cs)) := by
  unfold classify
  by_cases he : cs.isEmpty
  · rw [if_pos he]
    obtain rfl : cs = [] := by simpa [List.isEmpty_iff] using he
    refine ⟨by simp, by simp, fun _ => rfl, by simp⟩
  · rw [if_neg he]
    have hne : cs ≠ [] := by simpa [List.isEmpty_iff] using he
    by_cases hstreak : searchStreak cs = true
    · rw [if_pos hstreak]
      have hsp : StreakProp cs := (searchStreak_iff_prop cs).1 hstreak
      exact ⟨by simp [hne, hsp], by simp [hsp], fun h => absurd h hne,
        by simp [hne, hsp]⟩
    · rw [if_neg hstreak]
      have hnsp : ¬StreakProp cs := fun h =>
        hstreak ((searchStreak_iff_prop cs).2 h)
      by_cases hnob : containsNobody cs = true
      · rw [if_pos hnob]
        have hnp : NobodyProp cs := (containsNobody_iff_prop cs).1 hnob
        exact ⟨by simp [hnsp], by simp [hne, hnsp, hnp], fun h => absurd h hne,
          by simp [hne, hnp]⟩
      · rw [if_neg hnob]
        have hnnp : ¬NobodyProp cs := fun h =>
          hnob ((containsNobody_iff_prop cs).2 h)
        exact ⟨by simp [hnsp], by simp [hnnp], fun h => absurd h hne,
          by simp [hnsp, hnnp]⟩

/-- C6 amended witness: empty text classifies as `Unrecognized`. -/
theorem classifier_characterization_witness :
    classify [] = MessageClass.Unrecognized :=
  (classifier_characterization []).2.2.1 rfl

theorem digitsToNat_zeros {ds : List Char} (h : ∀ c ∈ ds, c = '0') :
    digitsToNat ds = 0 := by
  have haux : ∀ ds : List Char, (∀ c ∈ ds, c = '0') → ∀ acc : Nat,
      ds.foldl (fun n c => 10 * n + (c.toNat - 48)) acc =
        acc * 10 ^ ds.length := by
    intro ds
    induction ds with
    | nil =>
        intro h acc
        simp
    | cons c cs ih =>
        intro h acc
        obtain rfl : c = '0' := h c (List.mem_cons_self ..)
        rw [List.foldl_cons, ih (fun c hc => h c (List.mem_cons_of_mem _ hc))]
        have h0 : '0'.toNat - 48 = 0 := by decide
        rw [h0, Nat.add_zero, List.length_cons, pow_succ]
        ring
  simpa [digitsToNat] using haux ds h 0

/-- The classifier counterexample text: a streak announcement with a day
count of `0`. -/
def c6cex : List Char := "Your group is on a 0 day streak!".data

/-- C6 counterexample: the classifier returns `Results` for a streak
marker whose day count is `0`, which is not a positive integer — the
regex `(\d+)` accepts any digit string. -/
theorem classifier_c6_counterexample :
    classify c6cex = MessageClass.Results ∧
    ¬∃ pre art ds q, (art = ['a'] ∨ art = ['a', 'n']) ∧ ds ≠ [] ∧
      (∀ c ∈ ds, c.isDigit = true) ∧ 0 < digitsToNat ds ∧
      c6cex = pre ++ ("Your group is on ".data ++
        (art ++ (' ' :: (ds ++ (" day streak".data ++ q))))) := by
  constructor
  · decide
  · rintro ⟨pre, art, ds, q, hart, hne, hdig, hpos, heq⟩
    have hzero : ∀ c ∈ ds, c = '0' := by
      intro c hc
      have hmem : c ∈ c6cex := by
        rw [heq]
        simp only [List.mem_append, List.mem_cons]
        tauto
      have honly : ∀ c ∈ c6cex, c.isDigit = true → c = '0' := by decide
      exact honly c hmem (hdig c hc)
    rw [digitsToNat_zeros hzero] at hpos
    omega

/-! ## C7: free-text name resolution -/

/-- Word count `k` matches: its candidate is not purely numeric, is not
the name or display name of an already-found user, and resolves to
`u`. -/
def windowMatches (gm found : List Member) (words : List String) (k : Nat)
    (u : Member) : Prop :=
  pyIsDigit (candidateOf words k) = false ∧
  alreadyFound found (candidateOf words k) = false ∧
  tryCandidate gm (candidateOf words k) = some u

/-- Word count `k` contributes nothing: numeric candidate, duplicate of
an already-found user, or no directory match. -/
def windowFails (gm found : List Member) (words : List String) (k : Nat) : Prop :=
  pyIsDigit (candidateOf words k) = true ∨
  alreadyFound found (candidateOf words k) = true ∨
  tryCandidate gm (candidateOf words k) = none

theorem windowLoop_cons (gm found : List Member) (words : List String)
    (k : Nat) (ks : List Nat) (u : Member) :
    windowLoop gm found words (k :: ks) = some u ↔
      windowMatches gm found words k u ∨
        (windowFails gm found words k ∧
          windowLoop gm found words ks = some u) := by
  simp only [windowLoop, windowMatches, windowFails]
  by_cases h1 : pyIsDigit (candidateOf words k) = true
  · rw [if_pos h1]
    simp [h1]
  · rw [if_neg h1]
    rw [Bool.not_eq_true] at h1
    by_cases h2 : alreadyFound found (candidateOf words k) = true
    · rw [if_pos h2]
      simp [h1, h2]
    · rw [if_neg h2]
      rw [Bool.not_eq_true] at h2
      cases h3 : tryCandidate gm (candidateOf words k) with
      | some v => simp [h1, h2, h3, eq_comm]
      | none => simp [h1, h2, h3]

theorem windowLoop_range'_iff (gm found : List Member) (words : List String) :
    ∀ (n s : Nat) (u : Member),
      windowLoop gm found words (List.range' s n) = some u ↔
        ∃ k, s ≤ k ∧ k < s + n ∧ windowMatches gm found words k u ∧
          ∀ j, s ≤ j → j < k → windowFails gm found words j := by
  intro n
  induction n with
  | zero =>
      intro s u
      constructor
      · intro h
        exact absurd h (by simp [List.range', windowLoop])
      · rintro ⟨k, h1, h2, -, -⟩
        omega
  | succ n ih =>
      intro s u
      rw [show List.range' s (n + 1) = s :: List.range' (s + 1) n from rfl,
        windowLoop_cons, ih (s + 1) u]
      constructor
      · rintro (hm | ⟨hf, k, hk1, hk2, hm, hall⟩)
        · exact ⟨s, Nat.le_refl s, by omega, hm,
            fun j hj1 hj2 => absurd hj2 (by omega)⟩
        · refine ⟨k, by omega, by omega, hm, fun j hj1 hj2 => ?_⟩
          rcases Nat.eq_or_lt_of_le hj1 with rfl | hlt
          · exact hf
          · exact hall j (by omega) hj2
      · rintro ⟨k, hk1, hk2, hm, hall⟩
        rcases Nat.eq_or_lt_of_le hk1 with rfl | hlt
        · exact Or.inl hm
        · exact Or.inr ⟨hall s (Nat.le_refl s) hlt, k, by omega, by omega, hm,
            fun j hj1 hj2 => hall j (by omega) hj2⟩

theorem tryCandidate_order (gm : List Member) (c : String) :
    ((∃ m ∈ gm, m.display_name = c) →
      tryCandidate gm c = gm.find? (fun x => x.display_name == c)) ∧
    ((∀ m ∈ gm, m.display_name ≠ c) → (∃ m ∈ gm, m.name = c) →
      tryCandidate gm c = gm.find? (fun x => x.name == c)) ∧
    ((∀ m ∈ gm, m.display_name ≠ c ∧ m.name ≠ c) →
      tryCandidate gm c = gm.find? (fun x => ciMatch c x)) := by
  refine ⟨?_, ?_, ?_⟩
  · rintro ⟨m, hm, hd⟩
    unfold tryCandidate
    cases hf : gm.find? (fun x => x.display_name == c) with
    | some v => rfl
    | none =>
        rw [List.find?_eq_none] at hf
        exact absurd (by simpa using hd) (by simpa using hf m hm)
  · rintro hnd ⟨m, hm, hn⟩
    unfold tryCandidate
    have hf1 : gm.find? (fun x => x.display_name == c) = none := by
      rw [List.find?_eq_none]
      intro x hx
      simpa using hnd x hx
    rw [hf1]
    cases hf : gm.find? (fun x => x.name == c) with
    | some v => rfl
    | none =>
        rw [List.find?_eq_none] at hf
        exact absurd (by simpa using hn) (by simpa using hf m hm)
  · intro hall
    unfold tryCandidate
    have hf1 : gm.find? (fun x => x.display_name == c) = none := by
      rw [List.find?_eq_none]
      intro x hx
      simpa using (hall x hx).1
    have hf2 : gm.find? (fun x => x.name == c) = none := by
      rw [List.find?_eq_none]
      intro x hx
      simpa using (hall x hx).2
    rw [hf1, hf2]

/-- C7: over one `@`-window, word counts 1..min(5, #words) are tried in
increasing order and the loop returns the match of the first (smallest)
word count whose candidate is non-numeric, is not the name or display
name of an already-found user, and matches the directory — shortest
match wins, numeric candidates are skipped, and already-resolved
candidate text contributes nothing; within one candidate the match order
is exact display name, then exact username, then case-insensitive on
either field (first member in directory order each time). -/
theorem free_text_resolution (gm found : List Member) (words : List String)
    (u : Member) :
    (∀ t : List Char, resolveWindow gm found t =
      windowLoop gm found ((pySplit t).map String.mk)
        (List.range' 1 (min ((pySplit t).map String.mk).length 5))) ∧
    (windowLoop gm found words (List.range' 1 (min words.length 5)) = some u ↔
      ∃ k, 1 ≤ k ∧ k ≤ min words.length 5 ∧
        (pyIsDigit (candidateOf words k) = false ∧
          alreadyFound found (candidateOf words k) = false ∧
          tryCandidate gm (candidateOf words k) = some u) ∧
        ∀ j, 1 ≤ j → j < k →
          (pyIsDigit (candidateOf words j) = true ∨
            alreadyFound found (candidateOf words j) = true ∨
            tryCandidate gm (candidateOf words j) = none)) ∧
    (∀ c : String,
      ((∃ m ∈ gm, m.display_name = c) →
        tryCandidate gm c = gm.find? (fun x => x.display_name == c)) ∧
      ((∀ m ∈ gm, m.display_name ≠ c) → (∃ m ∈ gm, m.name = c) →
        tryCandidate gm c = gm.find? (fun x => x.name == c)) ∧
      ((∀ m ∈ gm, m.display_name ≠ c ∧ m.name ≠ c) →
        tryCandidate gm c = gm.find? (fun x => ciMatch c x))) := by
  refine ⟨fun t => rfl, ?_, fun c => tryCandidate_order gm c⟩
  rw [windowLoop_range'_iff]
  constructor
  · rintro ⟨k, h1, h2, hm, hall⟩
    exact ⟨k, h1, by omega, hm, hall⟩
  · rintro ⟨k, h1, h2, hm, hall⟩
    exact ⟨k, h1, by omega, hm, hall⟩

/-- C7 witness: with both "Jo" and "Jo Smith" in the directory, the
candidate "Jo" has an exact display-name match and resolution returns
the first such member. -/
theorem free_text_resolution_witness :
    (∃ m ∈ [(⟨1, "jo_s", "Jo Smith"⟩ : Member), ⟨2, "jo", "Jo"⟩],
      m.display_name = "Jo") ∧
    tryCandidate [⟨1, "jo_s", "Jo Smith"⟩, ⟨2, "jo", "Jo"⟩] "Jo" =
      List.find? (fun x => x.display_name == "Jo")
        [⟨1, "jo_s", "Jo Smith"⟩, ⟨2, "jo", "Jo"⟩] :=
  ⟨by decide,
    ((free_text_resolution [⟨1, "jo_s", "Jo Smith"⟩, ⟨2, "jo", "Jo"⟩] [] []
      ⟨1, "jo_s", "Jo Smith"⟩).2.2 "Jo").1 (by decide)⟩

end Wordle
